import Mathlib

/-!
# Verification of the sqlite-reader repository

Shallow embedding of the repository's Rust sources (`src/header.rs`,
`src/record.rs`, `src/schema.rs`, `src/main.rs`) and proofs about the
claims of the specification.

Modelling conventions, used throughout:

* A byte buffer is a `List Nat`; a well-formed buffer has every element
  below 256.  `u16::from_be_bytes`, `u32::from_be_bytes` become the
  corresponding base-256 arithmetic on the byte values.
* Fallible Rust code is embedded in `RunResult`:
  `RunResult.ok` is `Ok`, `RunResult.err` is an `anyhow` error
  (`bail!` / propagated `Err`), and `RunResult.fault` is a Rust panic —
  out-of-bounds slice indexing, `unwrap()` on `Err`/`None`, `unreachable!()`,
  or an arithmetic underflow such as `page_id - 1` when `page_id = 0`.
* Rust's lazy iterator chains are materialised as strict lists.  All the
  embedded consumers (`read_index`, `read_columns`) consume their iterators
  completely, so strict evaluation produces the same values; only the point
  at which two distinct failures would be raised can differ, never whether
  the run fails.
* The recursion of `parse_page` over child pages is not structural in the
  byte buffer, so the embedding adds an explicit fuel argument; exhausted
  fuel is a `fault` (the Rust recursion is bounded only by the machine
  stack).  All theorems quantify over the fuel.
-/

/-- Result of running a piece of embedded Rust code: `ok` is `Ok`, `err` is a
returned `anyhow::Error`, `fault` is a panic (out-of-bounds index, `unwrap`
failure, `unreachable!`, arithmetic underflow). -/
inductive RunResult (α : Type) where
  | ok : α → RunResult α
  | err : String → RunResult α
  | fault : RunResult α
deriving DecidableEq, Repr

namespace RunResult

def bind {α β : Type} : RunResult α → (α → RunResult β) → RunResult β
  | ok a, f => f a
  | err m, _ => err m
  | fault, _ => fault

instance : Monad RunResult where
  pure := RunResult.ok
  bind := RunResult.bind

/-- `true` exactly on `ok` results (decidable success of an embedded run). -/
def isOk {α : Type} : RunResult α → Bool
  | ok _ => true
  | _ => false

end RunResult

/-- Rust slice indexing `buf[i]`: the byte when in bounds, a panic otherwise. -/
def byteAt (buf : List Nat) (i : Nat) : RunResult Nat :=
  match buf[i]? with
  | some b => .ok b
  | none => .fault

/-- Rust subslice `&buf[a..b]`: panics when `a > b` or `b > buf.len()`. -/
def sliceRange (buf : List Nat) (a b : Nat) : RunResult (List Nat) :=
  if a ≤ b ∧ b ≤ buf.length then .ok ((buf.drop a).take (b - a)) else .fault

/-- Rust subslice `&buf[a..]`: panics when `a > buf.len()`. -/
def sliceFrom (buf : List Nat) (a : Nat) : RunResult (List Nat) :=
  if a ≤ buf.length then .ok (buf.drop a) else .fault

/-- Rust `.unwrap()` on a `Result`: an `Err` becomes a panic. -/
def unwrapRR {α : Type} : RunResult α → RunResult α
  | .ok a => .ok a
  | .err _ => .fault
  | .fault => .fault

/-- Rust `.unwrap()` on an `Option`. -/
def unwrapOpt {α : Type} : Option α → RunResult α
  | some a => .ok a
  | none => .fault

/-- Strict element-wise traversal of a list under `RunResult`, the embedding
of a fully consumed fallible iterator `map`/`filter_map` chain. -/
def mapRR {α β : Type} (f : α → RunResult β) : List α → RunResult (List β)
  | [] => .ok []
  | a :: rest => do
      let b ← f a
      let bs ← mapRR f rest
      .ok (b :: bs)

/-- Loop of the varint decoder: at most 9 bytes, the high bit of each of the
first 8 bytes signals continuation, the 9th byte contributes all 8 bits. -/
def varintAux : Nat → List Nat → Nat → Nat → RunResult (Nat × Nat)
  | _, [], _, _ => .err "truncated varint"
  | 0, b :: _, acc, consumed => .ok (acc * 256 + b, consumed + 1)
  | fuel + 1, b :: rest, acc, consumed =>
      if b < 128 then .ok (acc * 128 + b, consumed + 1)
      else varintAux fuel rest (acc * 128 + (b % 128)) (consumed + 1)

/-- Modelled from the spec: `parse_varint` lives in `src/varint.rs`, which is
not under `src/`; §4.1 of the spec describes it as "big-endian base-128
groups; each byte's high bit signals continuation; at most 9 bytes, the 9th
contributing all 8 of its bits", with truncated input "a format error, not a
silent zero".  Returns `(value, bytes_consumed)`. -/
def parse_varint (stream : List Nat) : RunResult (Nat × Nat) :=
  varintAux 8 stream 0 0

/-- `ColumnValue` from `src/record.rs`.  The `FP64` payload is the raw IEEE-754
bit pattern of the `f64` (floating-point arithmetic is not modelled; the
constructor is never produced by `parse_column_value`, whose serial type 7
falls through to the `bail!` arm). -/
inductive ColumnValue where
  | Null : ColumnValue
  | U8 : Nat → ColumnValue
  | U16 : Nat → ColumnValue
  | U24 : Nat → ColumnValue
  | U32 : Nat → ColumnValue
  | U48 : Nat → ColumnValue
  | U64 : Nat → ColumnValue
  | FP64 : Nat → ColumnValue
  | FalseVal : ColumnValue
  | TrueVal : ColumnValue
  | Blob : List Nat → ColumnValue
  | Text : List Nat → ColumnValue
deriving DecidableEq, Repr

namespace ColumnValue

/-- `ColumnValue::length` from `src/record.rs`. -/
def length : ColumnValue → Nat
  | .Null => 0
  | .U8 _ => 1
  | .U16 _ => 2
  | .U24 _ => 3
  | .U32 _ => 4
  | .U48 _ => 6
  | .U64 _ => 8
  | .FP64 _ => 8
  | .FalseVal => 0
  | .TrueVal => 0
  | .Blob v => v.length
  | .Text v => v.length

/-- `ColumnValue::read_usize` from `src/record.rs`; the catch-all arm is
`unreachable!()`, a panic. -/
def read_usize : ColumnValue → RunResult Nat
  | .U8 v => .ok v
  | .U16 v => .ok v
  | .U24 v => .ok v
  | .U32 v => .ok v
  | .U48 v => .ok v
  | .U64 v => .ok v
  | _ => .fault

end ColumnValue

/-- One step of UTF-8 decoding: decode the scalar value starting at the head
of the list, returning it and the remaining bytes; `none` on any byte
sequence `String::from_utf8` would reject (stray continuation bytes, overlong
encodings, surrogates, values beyond U+10FFFF). -/
def utf8Step : List Nat → Option (Nat × List Nat)
  | [] => none
  | b :: rest =>
      if b < 0x80 then some (b, rest)
      else if b < 0xC2 then none
      else if b < 0xE0 then
        match rest with
        | c1 :: r1 =>
            if 0x80 ≤ c1 ∧ c1 < 0xC0 then some ((b - 0xC0) * 64 + (c1 - 0x80), r1) else none
        | _ => none
      else if b < 0xF0 then
        match rest with
        | c1 :: c2 :: r2 =>
            let lo1 := if b = 0xE0 then 0xA0 else 0x80
            let hi1 := if b = 0xED then 0xA0 else 0xC0
            if lo1 ≤ c1 ∧ c1 < hi1 ∧ 0x80 ≤ c2 ∧ c2 < 0xC0 then
              some ((b - 0xE0) * 4096 + (c1 - 0x80) * 64 + (c2 - 0x80), r2)
            else none
        | _ => none
      else if b < 0xF5 then
        match rest with
        | c1 :: c2 :: c3 :: r3 =>
            let lo1 := if b = 0xF0 then 0x90 else 0x80
            let hi1 := if b = 0xF4 then 0x90 else 0xC0
            if lo1 ≤ c1 ∧ c1 < hi1 ∧ 0x80 ≤ c2 ∧ c2 < 0xC0 ∧ 0x80 ≤ c3 ∧ c3 < 0xC0 then
              some ((b - 0xF0) * 262144 + (c1 - 0x80) * 4096 + (c2 - 0x80) * 64 + (c3 - 0x80), r3)
            else none
        | _ => none
      else none

/-- Full UTF-8 decoding of a byte list, fuelled by the list length (each step
consumes at least one byte). -/
def utf8DecodeAux : Nat → List Nat → Option (List Char)
  | _, [] => some []
  | 0, _ :: _ => none
  | fuel + 1, bs =>
      match utf8Step bs with
      | some (cp, rest) => do
          let tail ← utf8DecodeAux fuel rest
          some (Char.ofNat cp :: tail)
      | none => none

/-- `String::from_utf8(v.to_vec())`: a `String` on valid UTF-8, `none` otherwise. -/
def utf8Decode (bs : List Nat) : Option String :=
  (utf8DecodeAux bs.length bs).map String.mk

namespace ColumnValue

/-- The `Display` impl for `ColumnValue` from `src/record.rs`, producing the
text the program prints for one value.  `Text` uses
`String::from_utf8(..).unwrap()`, which panics on invalid UTF-8; `Blob` uses
the `{:?}` debug form of a byte slice, `[b0, b1, ...]`.  `FP64` is never
produced by `parse_column_value`, and `f64` formatting is not modelled, so
its arm is a `fault` placeholder. -/
def toDisplay : ColumnValue → RunResult String
  | .Null => .ok ""
  | .U8 v => .ok (toString v)
  | .U16 v => .ok (toString v)
  | .U24 v => .ok (toString v)
  | .U32 v => .ok (toString v)
  | .U48 v => .ok (toString v)
  | .U64 v => .ok (toString v)
  | .FP64 _ => .fault
  | .FalseVal => .ok "false"
  | .TrueVal => .ok "true"
  | .Blob v => .ok ("[" ++ String.intercalate ", " (v.map toString) ++ "]")
  | .Text v =>
      match utf8Decode v with
      | some s => .ok s
      | none => .fault

end ColumnValue

/-- `parse_column_value` from `src/record.rs`.  Serial types 0–4, 8, 9 and the
blob/text families are handled; everything else — including 5, 6 and 7 —
falls through to `bail!("Invalid serial_type: {}", serial_type)`. -/
def parse_column_value (stream : List Nat) (serial_type : Nat) : RunResult ColumnValue :=
  match serial_type with
  | 0 => .ok .Null
  | 1 => do
      let b0 ← byteAt stream 0
      .ok (.U8 b0)
  | 2 => do
      let b0 ← byteAt stream 0
      let b1 ← byteAt stream 1
      .ok (.U16 (b0 * 256 + b1))
  | 3 => do
      let b0 ← byteAt stream 0
      let b1 ← byteAt stream 1
      let b2 ← byteAt stream 2
      .ok (.U24 (b0 * 65536 + b1 * 256 + b2))
  | 4 => do
      let b0 ← byteAt stream 0
      let b1 ← byteAt stream 1
      let b2 ← byteAt stream 2
      let b3 ← byteAt stream 3
      .ok (.U32 (b0 * 16777216 + b1 * 65536 + b2 * 256 + b3))
  | 8 => .ok .FalseVal
  | 9 => .ok .TrueVal
  | n =>
      if 12 ≤ n ∧ n % 2 = 0 then do
        let v ← sliceRange stream 0 ((n - 12) / 2)
        .ok (.Blob v)
      else if 13 ≤ n ∧ n % 2 = 1 then do
        let v ← sliceRange stream 0 ((n - 13) / 2)
        .ok (.Text v)
      else .err ("Invalid serial_type: " ++ toString n)

/-- The serial-type reading loop of `parse_record`: reads `count` varints
starting at `offset`, returning them and the final offset. -/
def readSerialTypes (stream : List Nat) : Nat → Nat → RunResult (List Nat × Nat)
  | 0, offset => .ok ([], offset)
  | count + 1, offset => do
      let s ← sliceFrom stream offset
      let (v, read_bytes) ← parse_varint s
      let (rest, final) ← readSerialTypes stream count (offset + read_bytes)
      .ok (v :: rest, final)

/-- The value reading loop of `parse_record`: decodes one column per serial
type, advancing the offset by each decoded value's `length`. -/
def readColumns (stream : List Nat) : List Nat → Nat → RunResult (List ColumnValue)
  | [], _ => .ok []
  | serial_type :: rest, offset => do
      let s ← sliceFrom stream offset
      let column ← parse_column_value s serial_type
      let cols ← readColumns stream rest (offset + column.length)
      .ok (column :: cols)

/-- `parse_record` from `src/record.rs`: header-size varint, `column_count`
serial-type varints, then the values starting at offset `header_size`. -/
def parse_record (stream : List Nat) (column_count : Nat) : RunResult (List ColumnValue) := do
  let (header_size, offset) ← parse_varint stream
  let (serial_types, _) ← readSerialTypes stream column_count offset
  readColumns stream serial_types header_size

/-- `BTreePage` from `src/header.rs`. -/
inductive BTreePage where
  | InteriorIndex : BTreePage
  | InteriorTable : BTreePage
  | LeafIndex : BTreePage
  | LeafTable : BTreePage
deriving DecidableEq, Repr

/-- `PageHeader` from `src/header.rs`. -/
structure PageHeader where
  page_type : BTreePage
  first_free_block_start : Nat
  number_of_cells : Nat
  start_of_content_area : Nat
  fragmented_free_bytes : Nat
  right_most_pointer : Option Nat
deriving DecidableEq, Repr

/-- `PageHeader::parse` from `src/header.rs`: tag byte 2/5/10/13 selects the
page type (anything else is `bail!`), three big-endian `u16` fields and one
`u8` follow, and interior pages additionally read a big-endian `u32`
right-most pointer, reporting header length 12 instead of 8. -/
def PageHeader.parse (stream : List Nat) : RunResult (Nat × PageHeader) := do
  let tag ← byteAt stream 0
  let page_type ←
    if tag = 2 then .ok BTreePage.InteriorIndex
    else if tag = 5 then .ok BTreePage.InteriorTable
    else if tag = 10 then .ok BTreePage.LeafIndex
    else if tag = 13 then .ok BTreePage.LeafTable
    else .err ("Invalid page value encountered: " ++ toString tag)
  let b1 ← byteAt stream 1
  let b2 ← byteAt stream 2
  let first_free_block_start := b1 * 256 + b2
  let b3 ← byteAt stream 3
  let b4 ← byteAt stream 4
  let number_of_cells := b3 * 256 + b4
  let b5 ← byteAt stream 5
  let b6 ← byteAt stream 6
  let start_of_content_area := b5 * 256 + b6
  let fragmented_free_bytes ← byteAt stream 7
  match page_type with
  | BTreePage.InteriorIndex | BTreePage.InteriorTable => do
      let b8 ← byteAt stream 8
      let b9 ← byteAt stream 9
      let b10 ← byteAt stream 10
      let b11 ← byteAt stream 11
      .ok (12,
        { page_type := page_type
          first_free_block_start := first_free_block_start
          number_of_cells := number_of_cells
          start_of_content_area := start_of_content_area
          fragmented_free_bytes := fragmented_free_bytes
          right_most_pointer := some (b8 * 16777216 + b9 * 65536 + b10 * 256 + b11) })
  | BTreePage.LeafIndex | BTreePage.LeafTable =>
      .ok (8,
        { page_type := page_type
          first_free_block_start := first_free_block_start
          number_of_cells := number_of_cells
          start_of_content_area := start_of_content_area
          fragmented_free_bytes := fragmented_free_bytes
          right_most_pointer := none })

/-- The two's-complement big-endian integer decoding the spec's §4.3 table
prescribes for the integer serial types (the spec-side definition, for
comparison with the source's unsigned decoding). -/
def spec_signed_be (bytes : List Nat) : Int :=
  let u : Nat := bytes.foldl (fun acc b => acc * 256 + b) 0
  let w : Nat := 8 * bytes.length
  if u < 2 ^ (w - 1) then (u : Int) else (u : Int) - (2 ^ w : Nat)

/-- `Schema` from `src/schema.rs`; `root_page` is a Rust `u8` there, so every
representable root page number is below 256. -/
structure Schema where
  kind : String
  name : String
  table_name : String
  root_page : Nat
  sql : String
deriving DecidableEq, Repr

/-- Modelled from the spec: `ColumnValue::read_string`, called by
`Schema::parse`, is repository code not under `src/` (only its caller is).
Per the catalog description in §4.5 it extracts the textual value of a
catalog column; a `Text` value is decoded as UTF-8, and any other variant is
a failure, conflated here with `Option.none`. -/
def ColumnValue.read_string : ColumnValue → Option String
  | .Text v => utf8Decode v
  | _ => none

/-- Modelled from the spec: `ColumnValue::read_u8`, called by `Schema::parse`,
is repository code not under `src/`.  Its Rust return type is `u8` (the
`Schema.root_page` field type), so the result is reduced modulo 256; a
non-integer variant is a failure, conflated here with `Option.none`. -/
def ColumnValue.read_u8 : ColumnValue → Option Nat
  | .U8 v => some (v % 256)
  | _ => none

/-- `Schema::parse` from `src/schema.rs`: five `items.next()?` reads, so any
record with fewer than five values produces `none` and no partial entry. -/
def Schema.parse (record : List ColumnValue) : Option Schema :=
  record[0]?.bind fun c0 => c0.read_string.bind fun kind =>
  record[1]?.bind fun c1 => c1.read_string.bind fun name =>
  record[2]?.bind fun c2 => c2.read_string.bind fun table_name =>
  record[3]?.bind fun c3 => c3.read_u8.bind fun root_page =>
  record[4]?.bind fun c4 => c4.read_string.bind fun sql =>
  some { kind := kind, name := name, table_name := table_name,
         root_page := root_page, sql := sql }

/-- `DBHeader` from `src/main.rs`. -/
structure DBHeader where
  page_size : Nat
  schemas : List Schema
deriving Repr

/-- `RecordMeta` from the repository's `record` module (its definition is not
under `src/`; the two fields are exactly the ones `src/main.rs` constructs
and reads): the expected column count and the absolute byte offset of a
record inside the database buffer — the spec's `record_location`. -/
structure RecordMeta where
  column_count : Nat
  offset : Nat
deriving DecidableEq, Repr

/-- Rust `Vec` indexing `v[i]`: panics when out of bounds. -/
def listIdx {α : Type} (l : List α) (i : Nat) : RunResult α :=
  match l[i]? with
  | some a => .ok a
  | none => .fault

/-- `chunks_exact(2)` over a byte list: consecutive disjoint pairs, any
trailing odd byte dropped. -/
def chunksPairs : List Nat → List (Nat × Nat)
  | a :: b :: rest => (a, b) :: chunksPairs rest
  | _ => []

/-- The cell-pointer array read of `parse_page`:
`database[start..].chunks_exact(2).take(n)` as big-endian `u16` values. -/
def cellPointers (db : List Nat) (start n : Nat) : RunResult (List Nat) := do
  let s ← sliceFrom db start
  .ok (((chunksPairs s).take n).map (fun p => p.1 * 256 + p.2))

/-- The page-header read of `parse_page`:
`PageHeader::parse(&database[o..o + 12]).unwrap()`. -/
def headerAt (db : List Nat) (o : Nat) : RunResult (Nat × PageHeader) := do
  let s ← sliceRange db o (o + 12)
  unwrapRR (PageHeader.parse s)

/-- One table-interior cell as read by `parse_page`: four big-endian bytes of
`left_child_page_id`, then the (discarded) key-rowid varint.  Returns
`(left_child_page_id, key_rowid)`. -/
def tableInteriorCell (db : List Nat) (o cp : Nat) : RunResult (Nat × Nat) := do
  let stream ← sliceFrom db (o + cp)
  let b0 ← byteAt stream 0
  let b1 ← byteAt stream 1
  let b2 ← byteAt stream 2
  let b3 ← byteAt stream 3
  let s4 ← sliceFrom stream 4
  let (rowid, _) ← parse_varint s4
  .ok (b0 * 16777216 + b1 * 65536 + b2 * 256 + b3, rowid)

/-- One table-leaf cell as read by `parse_page`: total-payload varint, rowid
varint.  Returns `(rowid, absolute_payload_offset)`. -/
def tableLeafCellCore (db : List Nat) (o cp : Nat) : RunResult (Nat × Nat) := do
  let stream ← sliceFrom db (o + cp)
  let (_total, offset) ← parse_varint stream
  let s2 ← sliceFrom stream offset
  let (rowid, read_bytes) ← parse_varint s2
  .ok (rowid, offset + read_bytes + o + cp)

/-- One index-interior cell as read by `parse_page`: four bytes of
`left_child_page_id`, payload-size varint, then
`parse_record(&stream[offset + 4..offset + 4 + payload_size], 2).unwrap()`.
Returns `(left_child_page_id, record, absolute_record_offset)`. -/
def indexInteriorCellCore (db : List Nat) (o cp : Nat) :
    RunResult (Nat × List ColumnValue × Nat) := do
  let stream ← sliceFrom db (o + cp)
  let b0 ← byteAt stream 0
  let b1 ← byteAt stream 1
  let b2 ← byteAt stream 2
  let b3 ← byteAt stream 3
  let s4 ← sliceFrom stream 4
  let (payload_size, offset) ← parse_varint s4
  let w ← sliceRange stream (offset + 4) (offset + 4 + payload_size)
  let record ← unwrapRR (parse_record w 2)
  .ok (b0 * 16777216 + b1 * 65536 + b2 * 256 + b3, record, offset + 4 + o + cp)

/-- One index-leaf cell as read by `parse_page`: payload-size varint, then
`parse_record(&stream[offset..offset + payload_size], 2).unwrap()`.
Returns `(record, absolute_record_offset)`. -/
def indexLeafCellCore (db : List Nat) (o cp : Nat) :
    RunResult (List ColumnValue × Nat) := do
  let stream ← sliceFrom db (o + cp)
  let (payload_size, offset) ← parse_varint stream
  let w ← sliceRange stream offset (offset + payload_size)
  let record ← unwrapRR (parse_record w 2)
  .ok (record, offset + o + cp)

/-- The table-interior loop of `parse_page`: for each cell pointer in array
order, read the cell, recurse into `page_size * (left_child_page_id - 1)`
(the `- 1` underflows — panics — when the child id is 0), and concatenate the
child sequences in that order. -/
def tableInteriorRows (db : List Nat) (ps : Nat)
    (recur : Nat → RunResult (List (ColumnValue × RecordMeta))) :
    List Nat → Nat → RunResult (List (ColumnValue × RecordMeta))
  | [], _ => .ok []
  | cp :: rest, o => do
      let (left_child_id, _rowid) ← tableInteriorCell db o cp
      if left_child_id = 0 then .fault
      else do
        let sub ← recur (ps * (left_child_id - 1))
        let more ← tableInteriorRows db ps recur rest o
        .ok (sub ++ more)

/-- The index-interior loop of `parse_page`: for each cell in array order,
read the cell, recurse into its left child first, then emit the cell's own
`(record[1], RecordMeta)` entry — an in-order walk. -/
def indexInteriorRows (db : List Nat) (ps : Nat)
    (recur : Nat → RunResult (List (ColumnValue × RecordMeta))) :
    List Nat → Nat → RunResult (List (ColumnValue × RecordMeta))
  | [], _ => .ok []
  | cp :: rest, o => do
      let (left_child_id, record, recOff) ← indexInteriorCellCore db o cp
      if left_child_id = 0 then .fault
      else do
        let sub ← recur (ps * (left_child_id - 1))
        let own ← listIdx record 1
        let more ← indexInteriorRows db ps recur rest o
        .ok (sub ++ (own, ⟨2, recOff⟩) :: more)

/-- `parse_page` from `src/main.rs`, the B-tree traversal engine.  The Rust
function returns `Option<Box<dyn Iterator ...>>` but every branch returns
`Some`, so the option layer is dropped and the lazily produced sequence is
materialised as a list; `fuel` bounds the page recursion depth (exhaustion is
a `fault`, as is the stack of the unbounded Rust recursion).  `column_map`
enters only through `RecordMeta.column_count` on table leaves
(`column_map.len()`). -/
def parse_page (db : List Nat) (hdr : DBHeader) (cmap : List (String × Nat)) (o : Nat) :
    Nat → RunResult (List (ColumnValue × RecordMeta))
  | 0 => .fault
  | fuel + 1 => do
      let (read, page_header) ← headerAt db o
      let cps ← cellPointers db (o + read) page_header.number_of_cells
      match page_header.page_type with
      | BTreePage.InteriorTable => do
          let rows ← tableInteriorRows db hdr.page_size
            (fun off => parse_page db hdr cmap off fuel) cps o
          match page_header.right_most_pointer with
          | some rp =>
              if rp = 0 then .fault
              else do
                let more ← parse_page db hdr cmap (hdr.page_size * (rp - 1)) fuel
                .ok (rows ++ more)
          | none => .ok rows
      | BTreePage.LeafTable =>
          mapRR (fun cp => do
            let (rowid, off) ← tableLeafCellCore db o cp
            .ok ((ColumnValue.U64 rowid, ⟨cmap.length, off⟩) : ColumnValue × RecordMeta)) cps
      | BTreePage.InteriorIndex => do
          let rows ← indexInteriorRows db hdr.page_size
            (fun off => parse_page db hdr cmap off fuel) cps o
          match page_header.right_most_pointer with
          | some rp =>
              if rp = 0 then .fault
              else do
                let more ← parse_page db hdr cmap (hdr.page_size * (rp - 1)) fuel
                .ok (rows ++ more)
          | none => .ok rows
      | BTreePage.LeafIndex =>
          mapRR (fun cp => do
            let (record, recOff) ← indexLeafCellCore db o cp
            let own ← listIdx record 1
            .ok ((own, ⟨2, recOff⟩) : ColumnValue × RecordMeta)) cps

/-- Total extraction of the integer carried by a rowid `ColumnValue`
(the embedding-side counterpart of `read_usize`, defaulting to 0 instead of
panicking; used only to state properties). -/
def cvNat : ColumnValue → Nat
  | .U8 v => v
  | .U16 v => v
  | .U24 v => v
  | .U32 v => v
  | .U48 v => v
  | .U64 v => v
  | _ => 0

/-- The projection loop shared by `read_columns` and `read_index` in
`src/main.rs`: for each requested column, either the rowid's display form
(pseudo-column `id`) or `parse_record(&database[row.offset..],
row.column_count)` followed by `record[cpos].to_string()`.  The printed line
is the pipe-join of the returned strings. -/
def projectRow (db : List Nat) (cmap : List (String × Nat)) (columns : List String)
    (rowid : ColumnValue) (row : RecordMeta) : RunResult (List String) :=
  mapRR (fun column =>
    if column = "id" then rowid.toDisplay
    else do
      let cpos ← unwrapOpt (cmap.lookup column)
      let s ← sliceFrom db row.offset
      let record ← unwrapRR (parse_record s row.column_count)
      let cv ← listIdx record cpos
      cv.toDisplay) columns

/-- The row loop of `read_columns` from `src/main.rs`: when a where-clause is
present, decode the filter column and skip rows whose display form differs
from the literal; project the surviving rows.  Each output entry is
`(rowid value, projected strings)` — the printed line is the pipe-join of the
strings, and the rowid value records which table row produced it. -/
def readColumnsLoop (db : List Nat) (cmap : List (String × Nat)) (columns : List String)
    (wc : Option (String × String)) :
    List (ColumnValue × RecordMeta) → RunResult (List (Nat × List String))
  | [] => .ok []
  | (rowid, row) :: rest => do
      let keep ←
        match wc with
        | some w => do
            let colidx ← unwrapOpt (cmap.lookup w.1)
            let s ← sliceFrom db row.offset
            let record ← unwrapRR (parse_record s row.column_count)
            let cv ← listIdx record colidx
            let str ← cv.toDisplay
            pure (decide (str = w.2))
        | none => pure true
      if keep then do
        let vals ← projectRow db cmap columns rowid row
        let more ← readColumnsLoop db cmap columns wc rest
        .ok ((cvNat rowid, vals) :: more)
      else readColumnsLoop db cmap columns wc rest

/-- `read_columns` from `src/main.rs` after the excluded SQL-text collaborator
has produced `(columns, table, where_clause)` (spec §6) and
`find_column_positions(schema.sql)` has produced `cmap` (spec §4.6 step 2;
the same map is computed identically by both query paths from the same
catalog entry, so it is taken as an input). -/
def read_columns_rows (db : List Nat) (hdr : DBHeader) (cmap : List (String × Nat))
    (columns : List String) (table : String) (wc : Option (String × String))
    (fuel : Nat) : RunResult (List (Nat × List String)) := do
  let schema ← unwrapOpt (hdr.schemas.find? (fun s => s.table_name == table))
  if schema.root_page = 0 then .fault
  else do
    let rows ← parse_page db hdr cmap (hdr.page_size * (schema.root_page - 1)) fuel
    readColumnsLoop db cmap columns wc rows

/-- The rowid-collection loop of `read_index` from `src/main.rs`: for every
emitted index entry, `parse_record(&database[row.offset..], 2)`, keep the
entry when `record[0].to_string()` equals the where-clause literal
(`where_clause.unwrap()` — a missing clause panics), and map the kept rowids
through `read_usize`. -/
def readIndexRowidsLoop (db : List Nat) (wc : Option (String × String)) :
    List (ColumnValue × RecordMeta) → RunResult (List Nat)
  | [] => .ok []
  | (rowid, row) :: rest => do
      let s ← sliceFrom db row.offset
      let record ← unwrapRR (parse_record s 2)
      let cv ← listIdx record 0
      let str ← cv.toDisplay
      let w ← unwrapOpt wc
      if str = w.2 then do
        let rid ← rowid.read_usize
        let more ← readIndexRowidsLoop db wc rest
        .ok (rid :: more)
      else readIndexRowidsLoop db wc rest

/-- The table loop of `read_index` from `src/main.rs`: keep the table rows
whose `rowid.read_usize()` is a member of the collected rowid set, and
project them exactly as `read_columns` does. -/
def readIndexTableLoop (db : List Nat) (cmap : List (String × Nat)) (columns : List String)
    (rowids : List Nat) :
    List (ColumnValue × RecordMeta) → RunResult (List (Nat × List String))
  | [] => .ok []
  | (rowid, row) :: rest => do
      let rid ← rowid.read_usize
      if rowids.contains rid then do
        let vals ← projectRow db cmap columns rowid row
        let more ← readIndexTableLoop db cmap columns rowids rest
        .ok ((cvNat rowid, vals) :: more)
      else readIndexTableLoop db cmap columns rowids rest

/-- `read_index` from `src/main.rs` after the excluded SQL-text collaborator
has produced `(columns, table, where_clause)` and `cmap` (as in
`read_columns_rows`): resolve the table's catalog entry and the index entry
literally named `idx_companies_country`, traverse the index tree collecting
the rowids whose key matches the literal, then traverse the table tree
keeping exactly the rows whose rowid is in that set, and project them. -/
def read_index_rows (db : List Nat) (hdr : DBHeader) (cmap : List (String × Nat))
    (columns : List String) (table : String) (wc : Option (String × String))
    (fuel : Nat) : RunResult (List (Nat × List String)) := do
  let schema ← unwrapOpt (hdr.schemas.find? (fun s => s.table_name == table))
  let index_schema ← unwrapOpt (hdr.schemas.find? (fun s => s.name == "idx_companies_country"))
  if index_schema.root_page = 0 then .fault
  else do
    let irows ← parse_page db hdr cmap (hdr.page_size * (index_schema.root_page - 1)) fuel
    let rowids ← readIndexRowidsLoop db wc irows
    if schema.root_page = 0 then .fault
    else do
      let trows ← parse_page db hdr cmap (hdr.page_size * (schema.root_page - 1)) fuel
      readIndexTableLoop db cmap columns rowids trows

/-- `count_rows_in_table` from `src/main.rs` after the excluded SQL-text
collaborator has produced the table name: resolve the catalog entry, parse
`PageHeader::parse(&database[o..o + 8]).unwrap()` at the root page's offset,
and report `number_of_cells` — no record is decoded and no child page is
visited. -/
def count_rows_in_table (table : String) (hdr : DBHeader) (db : List Nat) :
    RunResult Nat := do
  let schema ← unwrapOpt (hdr.schemas.find? (fun s => s.table_name == table))
  if schema.root_page = 0 then .fault
  else do
    let o := hdr.page_size * (schema.root_page - 1)
    let s ← sliceRange db o (o + 8)
    let (_, page_header) ← unwrapRR (PageHeader.parse s)
    .ok page_header.number_of_cells

/-- Strict ascent of a list of naturals, as a decidable check. -/
def strictAscending : List Nat → Bool
  | [] => true
  | [_] => true
  | a :: b :: rest => decide (a < b) && strictAscending (b :: rest)

/-- The rowid value carried by an emitted traversal entry (used to state the
ascending-rowid property). -/
def emittedRowid (x : ColumnValue × RecordMeta) : Nat := cvNat x.1

/-- The key measure of an emitted index entry: re-parse the record at the
entry's `RecordMeta.offset` — exactly what `read_index` does — and measure
its first column with `keyOf`; 0 when the record does not parse (used only to
state properties). -/
def emittedKey (db : List Nat) (keyOf : ColumnValue → Nat) (x : ColumnValue × RecordMeta) : Nat :=
  match sliceFrom db x.2.offset with
  | .ok s =>
      match parse_record s 2 with
      | .ok record => keyOf (record.getD 0 .Null)
      | _ => 0
  | _ => 0

/-- The property of an emitted index entry the in-order traversal
guarantees: the record re-parsed at the entry's offset (as `read_index`
re-parses it) has exactly the key column and the trailing rowid, the entry
carries that trailing rowid as its first component, and the key measure lies
in `[lo, hi)`. -/
def rowKeyP (db : List Nat) (keyOf : ColumnValue → Nat) (lo hi : Nat)
    (x : ColumnValue × RecordMeta) : Prop :=
  ∃ s record, sliceFrom db x.2.offset = .ok s ∧ parse_record s 2 = .ok record ∧
    record.length = 2 ∧ x.1 = record.getD 1 ColumnValue.Null ∧
    lo ≤ keyOf (record.getD 0 ColumnValue.Null) ∧ keyOf (record.getD 0 ColumnValue.Null) < hi

/-- Decidable check that the record re-parsed from the database buffer at
`recOff` — the parse `read_index` performs at `RecordMeta.offset` — is the
very record the traversal decoded from the cell's payload window. -/
def metaRecordOk (db : List Nat) (recOff : Nat) (record : List ColumnValue) : Bool :=
  match sliceFrom db recOff with
  | .ok s => decide (parse_record s 2 = .ok record)
  | _ => false

/-- Well-formedness of the cells of a table-interior page, with the open
rowid interval `[lo, hi)` for the whole page and `wfrec` checking child pages
at one less fuel: each cell's key-rowid separates consecutive child
intervals, and the right-most pointer's subtree covers the remainder. -/
def wfTableCells (db : List Nat) (ps : Nat) (wfrec : Nat → Nat → Nat → Bool) (o : Nat) :
    List Nat → Nat → Nat → Option Nat → Bool
  | [], lo, hi, some rp => decide (1 ≤ rp) && wfrec (ps * (rp - 1)) lo hi
  | [], _, _, none => false
  | cp :: rest, lo, hi, rmp =>
      match tableInteriorCell db o cp with
      | .ok (left_child_id, k) =>
          decide (1 ≤ left_child_id) && decide (lo ≤ k) && decide (k < hi) &&
          wfrec (ps * (left_child_id - 1)) lo (k + 1) &&
          wfTableCells db ps wfrec o rest (k + 1) hi rmp
      | _ => false

/-- Well-formedness of the cells of a table-leaf page: every cell decodes and
the rowids are strictly ascending within `[lo, hi)`. -/
def wfTableLeafCells (db : List Nat) (o : Nat) : List Nat → Nat → Nat → Bool
  | [], _, _ => true
  | cp :: rest, lo, hi =>
      match tableLeafCellCore db o cp with
      | .ok (rowid, _) =>
          decide (lo ≤ rowid) && decide (rowid < hi) &&
          wfTableLeafCells db o rest (rowid + 1) hi
      | _ => false

/-- Well-formed table B-tree rooted at byte offset `o`, all rowids within
`[lo, hi)`, tree height at most `fuel`: the decidable byte-level rendering of
the spec's "well-formed table B-tree" (key-ordered left-to-right, child
pointers partitioning the key space). -/
def wfTable (db : List Nat) (hdr : DBHeader) : Nat → Nat → Nat → Nat → Bool
  | 0, _, _, _ => false
  | fuel + 1, o, lo, hi =>
      match headerAt db o with
      | .ok (read, page_header) =>
          match cellPointers db (o + read) page_header.number_of_cells with
          | .ok cps =>
              match page_header.page_type with
              | BTreePage.LeafTable => wfTableLeafCells db o cps lo hi
              | BTreePage.InteriorTable =>
                  wfTableCells db hdr.page_size (wfTable db hdr fuel) o cps lo hi
                    page_header.right_most_pointer
              | _ => false
          | _ => false
      | _ => false

/-- Well-formedness of the cells of an index-interior page under the key
measure `keyOf`: each cell's record decodes (to two values), re-parses
identically at its recorded offset, and its key separates the in-order
intervals; the right-most subtree covers the remainder. -/
def wfIndexCells (db : List Nat) (keyOf : ColumnValue → Nat) (ps : Nat)
    (wfrec : Nat → Nat → Nat → Bool) (o : Nat) :
    List Nat → Nat → Nat → Option Nat → Bool
  | [], lo, hi, some rp => decide (1 ≤ rp) && wfrec (ps * (rp - 1)) lo hi
  | [], _, _, none => false
  | cp :: rest, lo, hi, rmp =>
      match indexInteriorCellCore db o cp with
      | .ok (left_child_id, record, recOff) =>
          decide (1 ≤ left_child_id) && decide (record.length = 2) &&
          metaRecordOk db recOff record &&
          decide (lo ≤ keyOf (record.getD 0 .Null)) &&
          decide (keyOf (record.getD 0 .Null) < hi) &&
          wfrec (ps * (left_child_id - 1)) lo (keyOf (record.getD 0 .Null)) &&
          wfIndexCells db keyOf ps wfrec o rest (keyOf (record.getD 0 .Null) + 1) hi rmp
      | _ => false

/-- Well-formedness of the cells of an index-leaf page: every cell's record
decodes (to two values), re-parses identically at its recorded offset, and
the keys are strictly ascending within `[lo, hi)`. -/
def wfIndexLeafCells (db : List Nat) (keyOf : ColumnValue → Nat) (o : Nat) :
    List Nat → Nat → Nat → Bool
  | [], _, _ => true
  | cp :: rest, lo, hi =>
      match indexLeafCellCore db o cp with
      | .ok (record, recOff) =>
          decide (record.length = 2) &&
          metaRecordOk db recOff record &&
          decide (lo ≤ keyOf (record.getD 0 .Null)) &&
          decide (keyOf (record.getD 0 .Null) < hi) &&
          wfIndexLeafCells db keyOf o rest (keyOf (record.getD 0 .Null) + 1) hi
      | _ => false

/-- Well-formed index B-tree rooted at byte offset `o` under the key measure
`keyOf`, all keys within `[lo, hi)`, height at most `fuel`: the decidable
byte-level rendering of the spec's "well-formed index B-tree" (keys ordered
by the declared ordering, interior keys separating their children). -/
def wfIndex (db : List Nat) (hdr : DBHeader) (keyOf : ColumnValue → Nat) :
    Nat → Nat → Nat → Nat → Bool
  | 0, _, _, _ => false
  | fuel + 1, o, lo, hi =>
      match headerAt db o with
      | .ok (read, page_header) =>
          match cellPointers db (o + read) page_header.number_of_cells with
          | .ok cps =>
              match page_header.page_type with
              | BTreePage.LeafIndex => wfIndexLeafCells db keyOf o cps lo hi
              | BTreePage.InteriorIndex =>
                  wfIndexCells db keyOf hdr.page_size (wfIndex db hdr keyOf fuel) o cps lo hi
                    page_header.right_most_pointer
              | _ => false
          | _ => false
      | _ => false

/-- Concrete database A: page size 32; page 1 unused; page 2 a table leaf
holding rows (rowid 1, name "a", country "x") and (rowid 2, name "b",
country "y"); page 3 an index leaf on `country` holding entries
("x", 1) and ("y", 2). -/
def dbA : List Nat :=
  (List.replicate 32 0) ++
  ([13, 0, 0, 0, 2, 0, 0, 0] ++ [0, 12, 0, 19] ++
   [5, 1, 3, 15, 15, 97, 120] ++ [5, 2, 3, 15, 15, 98, 121] ++ List.replicate 6 0) ++
  ([10, 0, 0, 0, 2, 0, 0, 0] ++ [0, 12, 0, 18] ++
   [5, 3, 15, 1, 120, 1] ++ [5, 3, 15, 1, 121, 2] ++ List.replicate 8 0)

/-- Catalog entry of database A's table. -/
def schemaATable : Schema :=
  { kind := "table", name := "companies", table_name := "companies", root_page := 2,
    sql := "CREATE TABLE companies (name text, country text)" }

/-- Catalog entry of database A's index. -/
def schemaAIndex : Schema :=
  { kind := "index", name := "idx_companies_country", table_name := "companies", root_page := 3,
    sql := "CREATE INDEX idx_companies_country on companies (country)" }

/-- The parsed database header of database A. -/
def hdrA : DBHeader := { page_size := 32, schemas := [schemaATable, schemaAIndex] }

/-- The column-position map of database A's table. -/
def cmapA : List (String × Nat) := [("name", 0), ("country", 1)]

/-- Concrete database B: page size 32; a three-level table B-tree — page 2 an
interior root (one cell, key-rowid 4, left child page 3; right-most pointer
page 4), pages 3 and 4 interior (keys 2 and 6, children pages 5/6 and 7/8),
pages 5–8 leaves holding rowids 1,2 / 3,4 / 5,6 / 7,8. -/
def dbB : List Nat :=
  (List.replicate 32 0) ++
  ([5, 0, 0, 0, 1, 0, 0, 0] ++ [0, 0, 0, 4] ++ [0, 16] ++ [0, 0] ++
   [0, 0, 0, 3, 4] ++ List.replicate 11 0) ++
  ([5, 0, 0, 0, 1, 0, 0, 0] ++ [0, 0, 0, 6] ++ [0, 16] ++ [0, 0] ++
   [0, 0, 0, 5, 2] ++ List.replicate 11 0) ++
  ([5, 0, 0, 0, 1, 0, 0, 0] ++ [0, 0, 0, 8] ++ [0, 16] ++ [0, 0] ++
   [0, 0, 0, 7, 6] ++ List.replicate 11 0) ++
  ([13, 0, 0, 0, 2, 0, 0, 0] ++ [0, 12, 0, 19] ++
   [5, 1, 3, 15, 15, 97, 120] ++ [5, 2, 3, 15, 15, 98, 121] ++ List.replicate 6 0) ++
  ([13, 0, 0, 0, 2, 0, 0, 0] ++ [0, 12, 0, 19] ++
   [5, 3, 3, 15, 15, 97, 120] ++ [5, 4, 3, 15, 15, 98, 121] ++ List.replicate 6 0) ++
  ([13, 0, 0, 0, 2, 0, 0, 0] ++ [0, 12, 0, 19] ++
   [5, 5, 3, 15, 15, 97, 120] ++ [5, 6, 3, 15, 15, 98, 121] ++ List.replicate 6 0) ++
  ([13, 0, 0, 0, 2, 0, 0, 0] ++ [0, 12, 0, 19] ++
   [5, 7, 3, 15, 15, 97, 120] ++ [5, 8, 3, 15, 15, 98, 121] ++ List.replicate 6 0)

/-- The parsed database header of database B (its schemas play no role in
`parse_page`). -/
def hdrB : DBHeader := { page_size := 32, schemas := [] }

/-- Concrete database C: page size 32; a two-level index B-tree — page 2 an
interior root with one cell (left child page 3, own record key "k" = byte
107, rowid 3; right-most pointer page 4), page 3 an index leaf with keys
97, 98 (rowids 1, 2), page 4 an index leaf with keys 120, 121
(rowids 4, 5). -/
def dbC : List Nat :=
  (List.replicate 32 0) ++
  ([2, 0, 0, 0, 1, 0, 0, 0] ++ [0, 0, 0, 4] ++ [0, 16] ++ [0, 0] ++
   [0, 0, 0, 3, 5, 3, 15, 1, 107, 3] ++ List.replicate 6 0) ++
  ([10, 0, 0, 0, 2, 0, 0, 0] ++ [0, 12, 0, 18] ++
   [5, 3, 15, 1, 97, 1] ++ [5, 3, 15, 1, 98, 2] ++ List.replicate 8 0) ++
  ([10, 0, 0, 0, 2, 0, 0, 0] ++ [0, 12, 0, 18] ++
   [5, 3, 15, 1, 120, 4] ++ [5, 3, 15, 1, 121, 5] ++ List.replicate 8 0)

/-- The parsed database header of database C. -/
def hdrC : DBHeader := { page_size := 32, schemas := [] }

/-- The key measure used for database C's index keys: the single byte of a
one-byte `Text` key. -/
def keyC : ColumnValue → Nat
  | .Text v => v.headD 0
  | _ => 0

/-- Concrete database D: page size 32; a two-level table B-tree — page 2 an
interior root (one cell, key 1, left child page 3; right-most pointer page
4), pages 3 and 4 table leaves with one row each (rowids 1 and 2).  Its
table therefore spans more than one page. -/
def dbD : List Nat :=
  (List.replicate 32 0) ++
  ([5, 0, 0, 0, 1, 0, 0, 0] ++ [0, 0, 0, 4] ++ [0, 16] ++ [0, 0] ++
   [0, 0, 0, 3, 1] ++ List.replicate 11 0) ++
  ([13, 0, 0, 0, 1, 0, 0, 0] ++ [0, 12] ++ [0, 0] ++
   [5, 1, 3, 15, 15, 97, 120] ++ List.replicate 13 0) ++
  ([13, 0, 0, 0, 1, 0, 0, 0] ++ [0, 12] ++ [0, 0] ++
   [5, 2, 3, 15, 15, 98, 121] ++ List.replicate 13 0)

/-- The parsed database header of database D, with its table's catalog
entry (root page 2). -/
def hdrD : DBHeader :=
  { page_size := 32,
    schemas := [{ kind := "table", name := "companies", table_name := "companies",
                  root_page := 2,
                  sql := "CREATE TABLE companies (name text, country text)" }] }

/-- Concrete database E: page size 32; page 2 an index leaf whose single cell
sits at the end of the page (byte 58) and declares payload size 6, so its
record bytes occupy offsets 59–64 — one byte past the page boundary at 64.
Byte 64, the first byte of page 3, holds the value 7 that the record's
trailing rowid column decodes to. -/
def dbE : List Nat :=
  (List.replicate 32 0) ++
  ([10, 0, 0, 0, 1, 0, 0, 0] ++ [0, 26] ++ List.replicate 16 0 ++
   [6, 3, 17, 1, 107, 108]) ++
  ([7] ++ List.replicate 31 0)

/-- The parsed database header of database E. -/
def hdrE : DBHeader := { page_size := 32, schemas := [] }

/-- `true` exactly on `U64` values (the shape of every rowid `parse_page`
emits from a table leaf). -/
def ColumnValue.isU64 : ColumnValue → Bool
  | .U64 _ => true
  | _ => false

/-- The record-column display chain both query paths run on an emitted row:
`parse_record(&database[offset..], column_count)` followed by
`record[colidx].to_string()`. -/
def entryColString (db : List Nat) (cc colidx : Nat) (meta : RecordMeta) : RunResult String := do
  let s ← sliceFrom db meta.offset
  let record ← unwrapRR (parse_record s cc)
  let cv ← listIdx record colidx
  cv.toDisplay

/-- Total variant of `entryColString`, defaulting to `""` (used only to state
consistency hypotheses). -/
def entryColStringD (db : List Nat) (cc colidx : Nat) (meta : RecordMeta) : String :=
  match entryColString db cc colidx meta with
  | .ok s => s
  | _ => ""

@[simp] theorem RunResult.bind_ok {α β : Type} (a : α) (f : α → RunResult β) :
    RunResult.bind (RunResult.ok a) f = f a := rfl

@[simp] theorem RunResult.bind_err {α β : Type} (m : String) (f : α → RunResult β) :
    RunResult.bind (RunResult.err m) f = RunResult.err m := rfl

@[simp] theorem RunResult.bind_fault {α β : Type} (f : α → RunResult β) :
    RunResult.bind (RunResult.fault : RunResult α) f = RunResult.fault := rfl

@[simp] theorem RunResult.monad_bind_eq {α β : Type} (x : RunResult α) (f : α → RunResult β) :
    x >>= f = RunResult.bind x f := rfl

@[simp] theorem RunResult.pure_eq {α : Type} (a : α) : (pure a : RunResult α) = RunResult.ok a := rfl

theorem RunResult.isOk_iff {α : Type} {r : RunResult α} :
    r.isOk = true ↔ ∃ a, r = RunResult.ok a := by
  cases r <;> simp [RunResult.isOk]

theorem byteAt_eq_ok {s : List Nat} {i : Nat} (h : i < s.length) : byteAt s i = .ok s[i] := by
  unfold byteAt
  rw [List.getElem?_eq_getElem h]

theorem byteAt_eq_fault {s : List Nat} {i : Nat} (h : s.length ≤ i) : byteAt s i = .fault := by
  unfold byteAt
  rw [List.getElem?_eq_none h]

/-- C1: for the serial-type codes the §4.3 table lists as integers of widths
6 and 8 and as the 64-bit float — codes 5, 6 and 7 — `parse_column_value`
does not return a value of the stated kind: it fails with the
`Invalid serial_type` format error, exactly as it does for the codes the
table genuinely omits (10 and 11). -/
theorem c1_serial_types_5_6_7_rejected :
    parse_column_value (List.replicate 8 0) 5 = .err "Invalid serial_type: 5" ∧
    parse_column_value (List.replicate 8 0) 6 = .err "Invalid serial_type: 6" ∧
    parse_column_value (List.replicate 8 0) 7 = .err "Invalid serial_type: 7" ∧
    parse_column_value (List.replicate 8 0) 10 = .err "Invalid serial_type: 10" ∧
    parse_column_value (List.replicate 8 0) 11 = .err "Invalid serial_type: 11" :=
  ⟨rfl, rfl, rfl, rfl, rfl⟩

/-- C2: integer column decoding is not sign-extended: on the one-byte input
`0xFF` with serial type 1 the decoder returns the unsigned value 255, and on
the two-byte input `0xFFFF` with serial type 2 it returns 65535, while the
spec's two's-complement decoding of those bytes is −1 in both cases. -/
theorem c2_integer_decoding_not_sign_extended :
    parse_column_value [255] 1 = .ok (ColumnValue.U8 255) ∧
    spec_signed_be [255] = -1 ∧
    parse_column_value [255, 255] 2 = .ok (ColumnValue.U16 65535) ∧
    spec_signed_be [255, 255] = -1 ∧
    (255 : Int) ≠ -1 ∧ (65535 : Int) ≠ -1 :=
  ⟨rfl, by decide, rfl, by decide, by decide, by decide⟩

/-- C9: no overflow detection exists: in database E the only cell of the
index-leaf page at bytes 32–63 declares payload size 6, so its record bytes
59–64 extend one byte past the page boundary at byte 64; the traversal
decodes it without any error, and the entry's trailing rowid 7 is the value
of byte 64, which belongs to the following page. -/
theorem c9_overflow_payload_silently_decoded :
    parse_page dbE hdrE [] 32 1 =
      .ok [(ColumnValue.U8 7, { column_count := 2, offset := 59 })] ∧
    dbE[64]? = some 7 ∧
    32 + 32 < 59 + 6 :=
  ⟨rfl, by decide, by decide⟩

set_option maxHeartbeats 2000000 in
/-- C6: `PageHeader::parse` is total over the four valid type tags on
sufficiently long input — tag 2 or 5 yields header length 12 with a present
right-most pointer, tag 10 or 13 yields header length 8 with no right-most
pointer — and any other leading tag byte fails with the
`Invalid page value encountered` error rather than defaulting. -/
theorem c6_page_header_parse_total_on_valid_tags :
    (∀ (s : List Nat) (b : Nat), s[0]? = some b → (b = 2 ∨ b = 5) → 12 ≤ s.length →
      ∃ h : PageHeader, PageHeader.parse s = .ok (12, h) ∧ h.right_most_pointer.isSome = true) ∧
    (∀ (s : List Nat) (b : Nat), s[0]? = some b → (b = 10 ∨ b = 13) → 8 ≤ s.length →
      ∃ h : PageHeader, PageHeader.parse s = .ok (8, h) ∧ h.right_most_pointer = none) ∧
    (∀ (s : List Nat) (b : Nat), s[0]? = some b → b ≠ 2 → b ≠ 5 → b ≠ 10 → b ≠ 13 →
      PageHeader.parse s = .err ("Invalid page value encountered: " ++ toString b)) := by
  refine ⟨?_, ?_, ?_⟩
  · intro s b h0 hb hlen
    rcases s with _ | ⟨a0, _ | ⟨a1, _ | ⟨a2, _ | ⟨a3, _ | ⟨a4, _ | ⟨a5, _ | ⟨a6, _ | ⟨a7, _ | ⟨a8, _ | ⟨a9, _ | ⟨a10, _ | ⟨a11, rest⟩⟩⟩⟩⟩⟩⟩⟩⟩⟩⟩⟩ <;>
      simp only [List.length_cons, List.length_nil] at hlen <;> try omega
    simp only [List.getElem?_cons_zero, Option.some.injEq] at h0
    subst h0
    rcases hb with rfl | rfl
    · exact ⟨⟨BTreePage.InteriorIndex, a1 * 256 + a2, a3 * 256 + a4, a5 * 256 + a6, a7,
        some (a8 * 16777216 + a9 * 65536 + a10 * 256 + a11)⟩, by simp [PageHeader.parse, byteAt], rfl⟩
    · exact ⟨⟨BTreePage.InteriorTable, a1 * 256 + a2, a3 * 256 + a4, a5 * 256 + a6, a7,
        some (a8 * 16777216 + a9 * 65536 + a10 * 256 + a11)⟩, by simp [PageHeader.parse, byteAt], rfl⟩
  · intro s b h0 hb hlen
    rcases s with _ | ⟨a0, _ | ⟨a1, _ | ⟨a2, _ | ⟨a3, _ | ⟨a4, _ | ⟨a5, _ | ⟨a6, _ | ⟨a7, rest⟩⟩⟩⟩⟩⟩⟩⟩ <;>
      simp only [List.length_cons, List.length_nil] at hlen <;> try omega
    simp only [List.getElem?_cons_zero, Option.some.injEq] at h0
    subst h0
    rcases hb with rfl | rfl
    · exact ⟨⟨BTreePage.LeafIndex, a1 * 256 + a2, a3 * 256 + a4, a5 * 256 + a6, a7, none⟩,
        by simp [PageHeader.parse, byteAt], rfl⟩
    · exact ⟨⟨BTreePage.LeafTable, a1 * 256 + a2, a3 * 256 + a4, a5 * 256 + a6, a7, none⟩,
        by simp [PageHeader.parse, byteAt], rfl⟩
  · intro s b h0 h2 h5 h10 h13
    rcases s with _ | ⟨a0, rest⟩
    · rw [List.getElem?_nil] at h0
      exact Option.noConfusion h0
    · simp only [List.getElem?_cons_zero, Option.some.injEq] at h0
      subst h0
      simp [PageHeader.parse, byteAt, h2, h5, h10, h13]

/-- C6 witness: the theorem applied to one interior page header, one leaf
page header and one invalid tag byte. -/
theorem c6_page_header_witness :
    (∃ h : PageHeader, PageHeader.parse [2, 0, 0, 0, 1, 0, 0, 0, 0, 0, 0, 9] = .ok (12, h) ∧
      h.right_most_pointer.isSome = true) ∧
    (∃ h : PageHeader, PageHeader.parse [13, 0, 0, 0, 2, 0, 0, 0] = .ok (8, h) ∧
      h.right_most_pointer = none) ∧
    PageHeader.parse [7, 0, 0, 0, 0, 0, 0, 0] =
      .err ("Invalid page value encountered: " ++ toString 7) :=
  ⟨c6_page_header_parse_total_on_valid_tags.1 _ 2 rfl (Or.inl rfl) (by decide),
   c6_page_header_parse_total_on_valid_tags.2.1 _ 13 rfl (Or.inr rfl) (by decide),
   c6_page_header_parse_total_on_valid_tags.2.2 _ 7 rfl (by decide) (by decide) (by decide)
     (by decide)⟩

/-- C7 counterexample: truncated input is not detected by a bounds check and
turned into a FormatError result — the column-value decoder and the
page-header parser index past the end of the buffer and panic instead
(`fault`, not `err`). -/
theorem c7_truncation_counterexample :
    parse_column_value [] 1 = RunResult.fault ∧
    parse_column_value [255] 2 = RunResult.fault ∧
    PageHeader.parse [13] = RunResult.fault :=
  ⟨rfl, rfl, rfl⟩

set_option maxHeartbeats 4000000 in
/-- C7 (amended): unrecognised tag and serial-type values are returned as
FormatError results, but truncation is not bounds-checked before slicing:
a page header shorter than its fixed layout demands (12 bytes interior,
8 bytes leaf) and an integer column narrower than its serial type's width
make the parsers hit an out-of-bounds access — a panic, not an error
value. -/
theorem c7_truncated_input_panics :
    (∀ (s : List Nat) (b : Nat), s[0]? = some b → (b = 2 ∨ b = 5) → s.length < 12 →
      PageHeader.parse s = .fault) ∧
    (∀ (s : List Nat) (b : Nat), s[0]? = some b → (b = 10 ∨ b = 13) → s.length < 8 →
      PageHeader.parse s = .fault) ∧
    (∀ (s : List Nat) (st : Nat), (st = 1 ∨ st = 2 ∨ st = 3 ∨ st = 4) → s.length < st →
      parse_column_value s st = .fault) := by
  refine ⟨?_, ?_, ?_⟩
  · intro s b h0 hb hlen
    rcases s with _ | ⟨a0, _ | ⟨a1, _ | ⟨a2, _ | ⟨a3, _ | ⟨a4, _ | ⟨a5, _ | ⟨a6, _ | ⟨a7, _ | ⟨a8, _ | ⟨a9, _ | ⟨a10, _ | ⟨a11, rest⟩⟩⟩⟩⟩⟩⟩⟩⟩⟩⟩⟩
    all_goals try (exfalso; simp only [List.length_cons] at hlen; omega)
    all_goals first
      | (rw [List.getElem?_nil] at h0; exact Option.noConfusion h0)
      | (simp only [List.getElem?_cons_zero, Option.some.injEq] at h0; subst h0;
         rcases hb with rfl | rfl <;> simp [PageHeader.parse, byteAt])
  · intro s b h0 hb hlen
    rcases s with _ | ⟨a0, _ | ⟨a1, _ | ⟨a2, _ | ⟨a3, _ | ⟨a4, _ | ⟨a5, _ | ⟨a6, _ | ⟨a7, rest⟩⟩⟩⟩⟩⟩⟩⟩
    all_goals try (exfalso; simp only [List.length_cons] at hlen; omega)
    all_goals first
      | (rw [List.getElem?_nil] at h0; exact Option.noConfusion h0)
      | (simp only [List.getElem?_cons_zero, Option.some.injEq] at h0; subst h0;
         rcases hb with rfl | rfl <;> simp [PageHeader.parse, byteAt])
  · intro s st hst hlen
    rcases s with _ | ⟨a0, _ | ⟨a1, _ | ⟨a2, _ | ⟨a3, rest⟩⟩⟩⟩
    all_goals rcases hst with rfl | rfl | rfl | rfl
    all_goals try (exfalso; simp only [List.length_cons] at hlen; omega)
    all_goals simp [parse_column_value, byteAt]

/-- C7 witness: the amended theorem applied to a truncated interior header, a
truncated leaf header and a truncated serial-type-3 value. -/
theorem c7_truncated_input_witness :
    PageHeader.parse [2, 0, 0] = .fault ∧
    PageHeader.parse [10, 0, 0] = .fault ∧
    parse_column_value [9] 3 = .fault :=
  ⟨c7_truncated_input_panics.1 [2, 0, 0] 2 rfl (Or.inl rfl) (by decide),
   c7_truncated_input_panics.2.1 [10, 0, 0] 10 rfl (Or.inl rfl) (by decide),
   c7_truncated_input_panics.2.2 [9] 3 (by decide) (by decide)⟩

theorem read_u8_le {cv : ColumnValue} {v : Nat} (h : cv.read_u8 = some v) : v ≤ 255 := by
  cases cv <;> simp [ColumnValue.read_u8] at h
  omega

theorem schema_parse_some {record : List ColumnValue} {s : Schema}
    (h : Schema.parse record = some s) :
    s.root_page ≤ 255 ∧ 5 ≤ record.length := by
  simp only [Schema.parse, Option.bind_eq_some] at h
  obtain ⟨c0, h0, k, hk, c1, h1, n, hn, c2, h2, t, ht, c3, h3, rp, hrp, c4, h4, q, hq, h⟩ := h
  obtain ⟨hlen4, -⟩ := List.getElem?_eq_some.mp h4
  cases h
  exact ⟨read_u8_le hrp, by omega⟩

/-- C10: every successfully parsed catalog entry stores its root page number
as a single unsigned byte — `root_page` is at most 255 — and `Schema::parse`
returns `none`, producing no partial entry, on every record with fewer than
five values. -/
theorem c10_schema_root_page_single_byte :
    (∀ (record : List ColumnValue) (s : Schema),
      Schema.parse record = some s → s.root_page ≤ 255) ∧
    (∀ record : List ColumnValue, record.length < 5 → Schema.parse record = none) := by
  constructor
  · intro record s h
    exact (schema_parse_some h).1
  · intro record hlen
    cases hp : Schema.parse record with
    | none => rfl
    | some s => exact absurd (schema_parse_some hp).2 (by omega)

/-- C10 witness: the theorem applied to a five-value record (whose fourth
value's `u8` read reduces 300 to 44 ≤ 255) and to a short record. -/
theorem c10_schema_witness :
    ({ kind := "t", name := "n", table_name := "t", root_page := 44, sql := "s" } : Schema).root_page ≤ 255 ∧
    Schema.parse [ColumnValue.Null] = none :=
  ⟨c10_schema_root_page_single_byte.1
      [ColumnValue.Text [116], ColumnValue.Text [110], ColumnValue.Text [116],
       ColumnValue.U8 300, ColumnValue.Text [115]] _ (by decide),
   c10_schema_root_page_single_byte.2 [ColumnValue.Null] (by decide)⟩

theorem mapRR_ok_length {α β : Type} {f : α → RunResult β} :
    ∀ {l : List α} {bs : List β}, mapRR f l = .ok bs → bs.length = l.length := by
  intro l
  induction l with
  | nil => intro bs h; simp [mapRR] at h; simp [← h]
  | cons a t ih =>
      intro bs h
      simp only [mapRR, RunResult.monad_bind_eq] at h
      cases hf : f a with
      | ok b =>
          rw [hf] at h
          simp only [RunResult.bind_ok] at h
          cases ht : mapRR f t with
          | ok bs2 =>
              rw [ht] at h
              simp only [RunResult.bind_ok] at h
              cases h
              simp [ih ht]
          | err m => rw [ht] at h; simp at h
          | fault => rw [ht] at h; simp at h
      | err m => rw [hf] at h; simp at h
      | fault => rw [hf] at h; simp at h

theorem mapRR_map_ok {α β γ : Type} (g : α → RunResult β) (k : β → γ) :
    ∀ {l : List α} {bs : List β}, mapRR g l = .ok bs →
      mapRR (fun a => RunResult.bind (g a) (fun b => RunResult.ok (k b))) l = .ok (bs.map k) := by
  intro l
  induction l with
  | nil => intro bs h; simp [mapRR] at h ⊢; simp [← h]
  | cons a t ih =>
      intro bs h
      simp only [mapRR, RunResult.monad_bind_eq] at h ⊢
      cases hf : g a with
      | ok b =>
          rw [hf] at h
          simp only [RunResult.bind_ok] at h
          cases ht : mapRR g t with
          | ok bs2 =>
              rw [ht] at h
              simp only [RunResult.bind_ok] at h
              cases h
              rw [ih ht]
              simp
          | err m => rw [ht] at h; simp at h
          | fault => rw [ht] at h; simp at h
      | err m => rw [hf] at h; simp at h
      | fault => rw [hf] at h; simp at h

theorem sliceRange_ok_length {db s : List Nat} {a b : Nat} (h : sliceRange db a b = .ok s) :
    s.length = b - a := by
  unfold sliceRange at h
  split at h
  · cases h
    rename_i hc
    simp [List.length_take, List.length_drop]
    omega
  · cases h

set_option maxRecDepth 4000 in
/-- C8 counterexample: on database D, whose table spans three pages (interior
root, two leaves), the count path does not sum leaf cell counts — it passes
an 8-byte slice of the interior root to the header parser, which reads past
it and panics, while the full scan finds the table's 2 rows. -/
theorem c8_multipage_count_counterexample :
    count_rows_in_table "companies" hdrD dbD = RunResult.fault ∧
    parse_page dbD hdrD cmapA 32 2 =
      .ok [(ColumnValue.U64 1, { column_count := 2, offset := 78 }),
           (ColumnValue.U64 2, { column_count := 2, offset := 110 })] :=
  ⟨rfl, rfl⟩

set_option maxHeartbeats 1000000 in
/-- C8 (amended): a count(*) query reads only the target page's header and
reports its `number_of_cells` without decoding any record; this equals the
row count only when the root is a leaf page (single-page table).  For a
multi-page table the root is interior, and the 8-byte slice handed to
`PageHeader::parse` cannot hold the 12-byte interior header, so the count
panics — the path does not support the multi-page case. -/
theorem c8_count_reads_root_header_only :
    (∀ (table : String) (hdr : DBHeader) (db : List Nat) (schema : Schema)
       (s : List Nat) (n : Nat) (ph : PageHeader),
      hdr.schemas.find? (fun x => x.table_name == table) = some schema →
      1 ≤ schema.root_page →
      sliceRange db (hdr.page_size * (schema.root_page - 1))
        (hdr.page_size * (schema.root_page - 1) + 8) = .ok s →
      PageHeader.parse s = .ok (n, ph) →
      count_rows_in_table table hdr db = .ok ph.number_of_cells) ∧
    (∀ (table : String) (hdr : DBHeader) (db : List Nat) (schema : Schema)
       (s : List Nat) (b : Nat),
      hdr.schemas.find? (fun x => x.table_name == table) = some schema →
      1 ≤ schema.root_page →
      sliceRange db (hdr.page_size * (schema.root_page - 1))
        (hdr.page_size * (schema.root_page - 1) + 8) = .ok s →
      s[0]? = some b → (b = 2 ∨ b = 5) →
      count_rows_in_table table hdr db = .fault) ∧
    (∀ (db : List Nat) (hdr : DBHeader) (cmap : List (String × Nat)) (o : Nat)
       (ph : PageHeader) (cps : List Nat) (cores : List (Nat × Nat)) (fuel : Nat),
      headerAt db o = .ok (8, ph) → ph.page_type = BTreePage.LeafTable →
      cellPointers db (o + 8) ph.number_of_cells = .ok cps →
      cps.length = ph.number_of_cells →
      mapRR (tableLeafCellCore db o) cps = .ok cores →
      ∃ rows, parse_page db hdr cmap o (fuel + 1) = .ok rows ∧
        rows.length = ph.number_of_cells) := by
  refine ⟨?_, ?_, ?_⟩
  · intro table hdr db schema s n ph hfind hrp hslice hparse
    simp only [count_rows_in_table, RunResult.monad_bind_eq]
    rw [hfind]
    simp only [unwrapOpt, RunResult.bind_ok]
    rw [if_neg (by omega : ¬ schema.root_page = 0)]
    rw [hslice]
    simp only [RunResult.bind_ok]
    rw [hparse]
    simp [unwrapRR]
  · intro table hdr db schema s b hfind hrp hslice h0 hb
    have hlen : s.length = 8 := by
      rw [sliceRange_ok_length hslice]
      omega
    have hfault : PageHeader.parse s = .fault := by
      rcases s with _ | ⟨a0, _ | ⟨a1, _ | ⟨a2, _ | ⟨a3, _ | ⟨a4, _ | ⟨a5, _ | ⟨a6, _ | ⟨a7, _ | ⟨a8, rest⟩⟩⟩⟩⟩⟩⟩⟩⟩
      all_goals try (exfalso; simp only [List.length_cons, List.length_nil] at hlen; omega)
      simp only [List.getElem?_cons_zero, Option.some.injEq] at h0
      subst h0
      rcases hb with rfl | rfl <;> simp [PageHeader.parse, byteAt]
    simp only [count_rows_in_table, RunResult.monad_bind_eq]
    rw [hfind]
    simp only [unwrapOpt, RunResult.bind_ok]
    rw [if_neg (by omega : ¬ schema.root_page = 0)]
    rw [hslice]
    simp only [RunResult.bind_ok]
    rw [hfault]
    simp [unwrapRR]
  · intro db hdr cmap o ph cps cores fuel hhd hpt hcps hlen hcores
    have h5 := mapRR_map_ok (tableLeafCellCore db o)
      (fun b => ((ColumnValue.U64 b.1, ⟨cmap.length, b.2⟩) : ColumnValue × RecordMeta)) hcores
    refine ⟨cores.map (fun b =>
      ((ColumnValue.U64 b.1, ⟨cmap.length, b.2⟩) : ColumnValue × RecordMeta)), ?_, ?_⟩
    · simp only [parse_page, RunResult.monad_bind_eq]
      rw [hhd]
      simp only [RunResult.bind_ok]
      rw [hcps]
      simp only [RunResult.bind_ok, hpt]
      exact h5
    · simp only [List.length_map]
      rw [mapRR_ok_length hcores, hlen]

/-- C8 witness: the amended theorem applied to database A (single leaf-page
table: count 2, matching the 2-row scan) and to database D (interior root:
the count panics). -/
theorem c8_count_witness :
    count_rows_in_table "companies" hdrA dbA = .ok 2 ∧
    count_rows_in_table "companies" hdrD dbD = RunResult.fault ∧
    (∃ rows, parse_page dbA hdrA cmapA 32 (0 + 1) = .ok rows ∧ rows.length = 2) :=
  ⟨c8_count_reads_root_header_only.1 "companies" hdrA dbA schemaATable
      [13, 0, 0, 0, 2, 0, 0, 0] 8
      ⟨BTreePage.LeafTable, 0, 2, 0, 0, none⟩ rfl (by decide) rfl rfl,
   c8_count_reads_root_header_only.2.1 "companies" hdrD dbD
      { kind := "table", name := "companies", table_name := "companies", root_page := 2,
        sql := "CREATE TABLE companies (name text, country text)" }
      [5, 0, 0, 0, 1, 0, 0, 0] 5 rfl (by decide) rfl rfl (Or.inr rfl),
   c8_count_reads_root_header_only.2.2 dbA hdrA cmapA 32
      ⟨BTreePage.LeafTable, 0, 2, 0, 0, none⟩ [12, 19] [(1, 46), (2, 53)] 0
      rfl rfl rfl rfl rfl⟩

theorem strictAscending_tail {a : Nat} {l : List Nat}
    (h : strictAscending (a :: l) = true) : strictAscending l = true := by
  cases l with
  | nil => rfl
  | cons b t =>
      simp only [strictAscending, Bool.and_eq_true] at h
      exact h.2

theorem strictAscending_cons_of_all {a : Nat} {l : List Nat}
    (hall : ∀ y ∈ l, a < y) (hl : strictAscending l = true) :
    strictAscending (a :: l) = true := by
  cases l with
  | nil => rfl
  | cons b t =>
      simp only [strictAscending, Bool.and_eq_true, decide_eq_true_eq]
      exact ⟨hall b (by simp), hl⟩

theorem strictAscending_head_lt {l : List Nat} :
    ∀ {a : Nat}, strictAscending (a :: l) = true → ∀ y ∈ l, a < y := by
  induction l with
  | nil => intro a h y hy; cases hy
  | cons b t ih =>
      intro a h y hy
      have hab : a < b := by
        simp only [strictAscending, Bool.and_eq_true, decide_eq_true_eq] at h
        exact h.1
      have hbt : strictAscending (b :: t) = true := strictAscending_tail h
      rcases List.mem_cons.mp hy with rfl | hy
      · exact hab
      · exact Nat.lt_trans hab (ih hbt y hy)

theorem strictAscending_append {xs ys : List Nat}
    (hxs : strictAscending xs = true) (hys : strictAscending ys = true)
    (hlt : ∀ x ∈ xs, ∀ y ∈ ys, x < y) :
    strictAscending (xs ++ ys) = true := by
  induction xs with
  | nil => simpa using hys
  | cons a t ih =>
      have ht := strictAscending_tail hxs
      have h2 := ih ht (fun x hx y hy => hlt x (List.mem_cons_of_mem a hx) y hy)
      rw [List.cons_append]
      apply strictAscending_cons_of_all ?_ h2
      intro y hy
      rcases List.mem_append.mp hy with hy | hy
      · exact strictAscending_head_lt hxs y hy
      · exact hlt a (by simp) y hy

theorem tableInteriorRows_cons {db : List Nat} {ps : Nat}
    {recur : Nat → RunResult (List (ColumnValue × RecordMeta))} {cp : Nat} {rest : List Nat}
    {o lcid k : Nat} {sub more : List (ColumnValue × RecordMeta)}
    (hc : tableInteriorCell db o cp = .ok (lcid, k)) (hl : 1 ≤ lcid)
    (hsub : recur (ps * (lcid - 1)) = .ok sub)
    (hmore : tableInteriorRows db ps recur rest o = .ok more) :
    tableInteriorRows db ps recur (cp :: rest) o = .ok (sub ++ more) := by
  simp only [tableInteriorRows, RunResult.monad_bind_eq]
  rw [hc]
  simp only [RunResult.bind_ok]
  rw [if_neg (by omega : ¬ lcid = 0)]
  rw [hsub]
  simp only [RunResult.bind_ok]
  rw [hmore]
  simp

theorem parse_page_interior_table_step {db : List Nat} {hdr : DBHeader}
    {cmap : List (String × Nat)} {o fuel read : Nat} {ph : PageHeader} {cps : List Nat}
    {rows1 rows2 : List (ColumnValue × RecordMeta)} {rp : Nat}
    (hhd : headerAt db o = .ok (read, ph))
    (hcps : cellPointers db (o + read) ph.number_of_cells = .ok cps)
    (hpt : ph.page_type = BTreePage.InteriorTable)
    (hrmp : ph.right_most_pointer = some rp) (hrp : 1 ≤ rp)
    (hrows1 : tableInteriorRows db hdr.page_size
      (fun off => parse_page db hdr cmap off fuel) cps o = .ok rows1)
    (hrows2 : parse_page db hdr cmap (hdr.page_size * (rp - 1)) fuel = .ok rows2) :
    parse_page db hdr cmap o (fuel + 1) = .ok (rows1 ++ rows2) := by
  simp only [parse_page, RunResult.monad_bind_eq]
  rw [hhd]
  simp only [RunResult.bind_ok]
  rw [hcps]
  simp only [RunResult.bind_ok, hpt]
  rw [hrows1]
  simp only [RunResult.bind_ok, hrmp]
  rw [if_neg (by omega : ¬ rp = 0)]
  rw [hrows2]
  simp

theorem wfTableLeafCells_sound (db : List Nat) (o : Nat) :
    ∀ (cps : List Nat) (lo hi : Nat),
      wfTableLeafCells db o cps lo hi = true →
      ∃ cores : List (Nat × Nat), mapRR (tableLeafCellCore db o) cps = .ok cores ∧
        strictAscending (cores.map Prod.fst) = true ∧
        ∀ c ∈ cores, lo ≤ c.1 ∧ c.1 < hi := by
  intro cps
  induction cps with
  | nil =>
      intro lo hi h
      exact ⟨[], rfl, rfl, by simp⟩
  | cons cp rest ih =>
      intro lo hi h
      cases hc : tableLeafCellCore db o cp with
      | ok core =>
          obtain ⟨rowid, off⟩ := core
          simp only [wfTableLeafCells] at h
          rw [hc] at h
          simp only [Bool.and_eq_true, decide_eq_true_eq] at h
          obtain ⟨⟨hlo, hhi⟩, hrest⟩ := h
          obtain ⟨cores, hcores, hasc, hbnd⟩ := ih _ _ hrest
          refine ⟨(rowid, off) :: cores, ?_, ?_, ?_⟩
          · simp only [mapRR, RunResult.monad_bind_eq]
            rw [hc]
            simp only [RunResult.bind_ok]
            rw [hcores]
            simp
          · simp only [List.map_cons]
            apply strictAscending_cons_of_all ?_ hasc
            intro y hy
            obtain ⟨c, hcmem, rfl⟩ := List.mem_map.mp hy
            have := (hbnd c hcmem).1
            omega
          · intro c hcm
            rcases List.mem_cons.mp hcm with rfl | hcm
            · exact ⟨hlo, hhi⟩
            · have := hbnd c hcm
              exact ⟨by omega, this.2⟩
      | err m =>
          simp only [wfTableLeafCells] at h
          rw [hc] at h
          simp at h
      | fault =>
          simp only [wfTableLeafCells] at h
          rw [hc] at h
          simp at h

theorem wfTableCells_sound (db : List Nat) (hdr : DBHeader) (cmap : List (String × Nat))
    (fuel : Nat)
    (IH : ∀ o lo hi, wfTable db hdr fuel o lo hi = true →
      ∃ rows, parse_page db hdr cmap o fuel = .ok rows ∧
        strictAscending (rows.map emittedRowid) = true ∧
        ∀ x ∈ rows, lo ≤ emittedRowid x ∧ emittedRowid x < hi ∧
          ∃ v, x.1 = ColumnValue.U64 v) :
    ∀ (cps : List Nat) (o lo hi : Nat) (rmp : Option Nat),
      wfTableCells db hdr.page_size (wfTable db hdr fuel) o cps lo hi rmp = true →
      ∃ rows1 rows2 rp, rmp = some rp ∧ 1 ≤ rp ∧
        tableInteriorRows db hdr.page_size
          (fun off => parse_page db hdr cmap off fuel) cps o = .ok rows1 ∧
        parse_page db hdr cmap (hdr.page_size * (rp - 1)) fuel = .ok rows2 ∧
        strictAscending ((rows1 ++ rows2).map emittedRowid) = true ∧
        ∀ x ∈ rows1 ++ rows2, lo ≤ emittedRowid x ∧ emittedRowid x < hi ∧
          ∃ v, x.1 = ColumnValue.U64 v := by
  intro cps
  induction cps with
  | nil =>
      intro o lo hi rmp hwf
      cases rmp with
      | none => simp [wfTableCells] at hwf
      | some rp =>
          simp only [wfTableCells, Bool.and_eq_true, decide_eq_true_eq] at hwf
          obtain ⟨hrp, hrec⟩ := hwf
          obtain ⟨rows2, h2, hasc, hbnd⟩ := IH _ _ _ hrec
          exact ⟨[], rows2, rp, rfl, hrp, rfl, h2, by simpa using hasc, by simpa using hbnd⟩
  | cons cp rest ih =>
      intro o lo hi rmp hwf
      cases hc : tableInteriorCell db o cp with
      | ok pair =>
          obtain ⟨lcid, k⟩ := pair
          simp only [wfTableCells] at hwf
          rw [hc] at hwf
          simp only [Bool.and_eq_true, decide_eq_true_eq] at hwf
          obtain ⟨⟨⟨⟨hlcid, hlok⟩, hkhi⟩, hchild⟩, hrest⟩ := hwf
          obtain ⟨sub, hsub, hsubasc, hsubbnd⟩ := IH _ _ _ hchild
          obtain ⟨rows1, rows2, rp, hrmp, hrp, hrows1, hrows2, hasc, hbnd⟩ := ih _ _ _ _ hrest
          refine ⟨sub ++ rows1, rows2, rp, hrmp, hrp,
            tableInteriorRows_cons hc hlcid hsub hrows1, hrows2, ?_, ?_⟩
          · rw [List.append_assoc, List.map_append]
            apply strictAscending_append hsubasc hasc
            intro x hx y hy
            obtain ⟨u, hu, rfl⟩ := List.mem_map.mp hx
            obtain ⟨w, hw, rfl⟩ := List.mem_map.mp hy
            have h1 := (hsubbnd u hu).2.1
            have h2 := (hbnd w hw).1
            omega
          · intro x hx
            rw [List.append_assoc] at hx
            rcases List.mem_append.mp hx with hx | hx
            · obtain ⟨ha, hb, hc2⟩ := hsubbnd x hx
              exact ⟨ha, by omega, hc2⟩
            · obtain ⟨ha, hb, hc2⟩ := hbnd x hx
              exact ⟨by omega, hb, hc2⟩
      | err m =>
          simp only [wfTableCells] at hwf
          rw [hc] at hwf
          simp at hwf
      | fault =>
          simp only [wfTableCells] at hwf
          rw [hc] at hwf
          simp at hwf

theorem wfTable_sound :
    ∀ (fuel : Nat) (db : List Nat) (hdr : DBHeader) (cmap : List (String × Nat))
      (o lo hi : Nat),
      wfTable db hdr fuel o lo hi = true →
      ∃ rows, parse_page db hdr cmap o fuel = .ok rows ∧
        strictAscending (rows.map emittedRowid) = true ∧
        ∀ x ∈ rows, lo ≤ emittedRowid x ∧ emittedRowid x < hi ∧
          ∃ v, x.1 = ColumnValue.U64 v := by
  intro fuel
  induction fuel with
  | zero =>
      intro db hdr cmap o lo hi h
      simp [wfTable] at h
  | succ fuel ih =>
      intro db hdr cmap o lo hi h
      simp only [wfTable] at h
      split at h
      · rename_i read ph hhd
        split at h
        · rename_i cps hcps
          split at h
          · -- LeafTable arm
            rename_i hpt
            obtain ⟨cores, hcores, hasc, hbnd⟩ := wfTableLeafCells_sound db o cps lo hi h
            have h5 := mapRR_map_ok (tableLeafCellCore db o)
              (fun b => ((ColumnValue.U64 b.1, ⟨cmap.length, b.2⟩) :
                ColumnValue × RecordMeta)) hcores
            refine ⟨cores.map (fun b =>
              ((ColumnValue.U64 b.1, ⟨cmap.length, b.2⟩) : ColumnValue × RecordMeta)),
              ?_, ?_, ?_⟩
            · simp only [parse_page, RunResult.monad_bind_eq]
              rw [hhd]
              simp only [RunResult.bind_ok]
              rw [hcps]
              simp only [RunResult.bind_ok, hpt]
              exact h5
            · rw [List.map_map]
              exact hasc
            · intro x hx
              obtain ⟨c, hcm, rfl⟩ := List.mem_map.mp hx
              have := hbnd c hcm
              exact ⟨this.1, this.2, c.1, rfl⟩
          · -- InteriorTable arm
            rename_i hpt
            obtain ⟨rows1, rows2, rp, hrmp, hrp, hrows1, hrows2, hasc, hbnd⟩ :=
              wfTableCells_sound db hdr cmap fuel (fun o lo hi => ih db hdr cmap o lo hi)
                cps o lo hi ph.right_most_pointer h
            exact ⟨rows1 ++ rows2,
              parse_page_interior_table_step hhd hcps hpt hrmp hrp hrows1 hrows2,
              hasc, hbnd⟩
          · simp at h
        · simp at h
      · simp at h

/-- C3: on a table-interior page the traversal emits, for each cell pointer
in array order, all rows of the subtree rooted at that cell's
`left_child_page_id`, and after all cells the rows of the `right_most_pointer`
subtree, concatenated in exactly that order (first two conjuncts: the cell
loop prepends each left-child subtree in cell order, and the page's output is
the loop's rows followed by the right-most subtree's rows); consequently, for
every well-formed table B-tree, the emitted rowid sequence is strictly
ascending (third conjunct). -/
theorem c3_table_interior_in_order_and_ascending :
    (∀ (db : List Nat) (ps : Nat)
       (recur : Nat → RunResult (List (ColumnValue × RecordMeta))) (cp : Nat)
       (rest : List Nat) (o lcid k : Nat) (sub more : List (ColumnValue × RecordMeta)),
      tableInteriorCell db o cp = .ok (lcid, k) → 1 ≤ lcid →
      recur (ps * (lcid - 1)) = .ok sub →
      tableInteriorRows db ps recur rest o = .ok more →
      tableInteriorRows db ps recur (cp :: rest) o = .ok (sub ++ more)) ∧
    (∀ (db : List Nat) (hdr : DBHeader) (cmap : List (String × Nat)) (o fuel read : Nat)
       (ph : PageHeader) (cps : List Nat) (rows1 rows2 : List (ColumnValue × RecordMeta))
       (rp : Nat),
      headerAt db o = .ok (read, ph) →
      cellPointers db (o + read) ph.number_of_cells = .ok cps →
      ph.page_type = BTreePage.InteriorTable →
      ph.right_most_pointer = some rp → 1 ≤ rp →
      tableInteriorRows db hdr.page_size (fun off => parse_page db hdr cmap off fuel) cps o =
        .ok rows1 →
      parse_page db hdr cmap (hdr.page_size * (rp - 1)) fuel = .ok rows2 →
      parse_page db hdr cmap o (fuel + 1) = .ok (rows1 ++ rows2)) ∧
    (∀ (fuel : Nat) (db : List Nat) (hdr : DBHeader) (cmap : List (String × Nat))
       (o lo hi : Nat),
      wfTable db hdr fuel o lo hi = true →
      ∃ rows, parse_page db hdr cmap o fuel = .ok rows ∧
        strictAscending (rows.map emittedRowid) = true) := by
  refine ⟨?_, ?_, ?_⟩
  · intro db ps recur cp rest o lcid k sub more hc hl hsub hmore
    exact tableInteriorRows_cons hc hl hsub hmore
  · intro db hdr cmap o fuel read ph cps rows1 rows2 rp hhd hcps hpt hrmp hrp h1 h2
    exact parse_page_interior_table_step hhd hcps hpt hrmp hrp h1 h2
  · intro fuel db hdr cmap o lo hi h
    obtain ⟨rows, h1, h2, h3⟩ := wfTable_sound fuel db hdr cmap o lo hi h
    exact ⟨rows, h1, h2⟩

set_option maxRecDepth 8000 in
/-- C3 witness: the theorem applied to database B's three-level table tree —
the interior root's output is the concatenation of its cell's left-child
subtree rows and the right-most subtree rows, and the well-formed tree yields
the strictly ascending rowids 1–8. -/
theorem c3_table_traversal_witness :
    parse_page dbB hdrB [] 32 (2 + 1) =
      .ok ([(ColumnValue.U64 1, { column_count := 0, offset := 142 }),
            (ColumnValue.U64 2, { column_count := 0, offset := 149 }),
            (ColumnValue.U64 3, { column_count := 0, offset := 174 }),
            (ColumnValue.U64 4, { column_count := 0, offset := 181 })] ++
           [(ColumnValue.U64 5, { column_count := 0, offset := 206 }),
            (ColumnValue.U64 6, { column_count := 0, offset := 213 }),
            (ColumnValue.U64 7, { column_count := 0, offset := 238 }),
            (ColumnValue.U64 8, { column_count := 0, offset := 245 })]) ∧
    tableInteriorRows dbB 32 (fun off => parse_page dbB hdrB [] off 2) [16] 32 =
      .ok ([(ColumnValue.U64 1, { column_count := 0, offset := 142 }),
            (ColumnValue.U64 2, { column_count := 0, offset := 149 }),
            (ColumnValue.U64 3, { column_count := 0, offset := 174 }),
            (ColumnValue.U64 4, { column_count := 0, offset := 181 })] ++ []) ∧
    (∃ rows, parse_page dbB hdrB [] 32 3 = .ok rows ∧
      strictAscending (rows.map emittedRowid) = true) :=
  ⟨c3_table_interior_in_order_and_ascending.2.1 dbB hdrB [] 32 2 12
      ⟨BTreePage.InteriorTable, 0, 1, 0, 0, some 4⟩ [16]
      [(ColumnValue.U64 1, { column_count := 0, offset := 142 }),
       (ColumnValue.U64 2, { column_count := 0, offset := 149 }),
       (ColumnValue.U64 3, { column_count := 0, offset := 174 }),
       (ColumnValue.U64 4, { column_count := 0, offset := 181 })]
      [(ColumnValue.U64 5, { column_count := 0, offset := 206 }),
       (ColumnValue.U64 6, { column_count := 0, offset := 213 }),
       (ColumnValue.U64 7, { column_count := 0, offset := 238 }),
       (ColumnValue.U64 8, { column_count := 0, offset := 245 })] 4
      rfl rfl rfl rfl (by decide) rfl rfl,
   c3_table_interior_in_order_and_ascending.1 dbB 32 (fun off => parse_page dbB hdrB [] off 2) 16 [] 32 3 4
      [(ColumnValue.U64 1, { column_count := 0, offset := 142 }),
       (ColumnValue.U64 2, { column_count := 0, offset := 149 }),
       (ColumnValue.U64 3, { column_count := 0, offset := 174 }),
       (ColumnValue.U64 4, { column_count := 0, offset := 181 })] []
      rfl (by decide) rfl rfl,
   c3_table_interior_in_order_and_ascending.2.2 3 dbB hdrB [] 32 0 100 rfl⟩

theorem listIdx_pair {l : List ColumnValue} (h : l.length = 2) :
    listIdx l 1 = .ok (l.getD 1 ColumnValue.Null) := by
  rcases l with _ | ⟨a, _ | ⟨b, _ | ⟨c, t⟩⟩⟩ <;> simp_all [listIdx]

theorem metaRecordOk_elim {db : List Nat} {recOff : Nat} {record : List ColumnValue}
    (h : metaRecordOk db recOff record = true) :
    ∃ s, sliceFrom db recOff = .ok s ∧ parse_record s 2 = .ok record := by
  unfold metaRecordOk at h
  split at h
  · rename_i s hs
    exact ⟨s, hs, of_decide_eq_true h⟩
  · exact absurd h (by simp)

theorem emittedKey_eq {db : List Nat} {keyOf : ColumnValue → Nat}
    {x : ColumnValue × RecordMeta} {s : List Nat} {record : List ColumnValue}
    (hs : sliceFrom db x.2.offset = .ok s) (hr : parse_record s 2 = .ok record) :
    emittedKey db keyOf x = keyOf (record.getD 0 ColumnValue.Null) := by
  unfold emittedKey
  rw [hs]
  simp only [hr]

theorem rowKeyP_key {db : List Nat} {keyOf : ColumnValue → Nat} {lo hi : Nat}
    {x : ColumnValue × RecordMeta} (h : rowKeyP db keyOf lo hi x) :
    lo ≤ emittedKey db keyOf x ∧ emittedKey db keyOf x < hi := by
  obtain ⟨s, record, hs, hr, hlen, hown, hlo, hhi⟩ := h
  rw [emittedKey_eq hs hr]
  exact ⟨hlo, hhi⟩

theorem rowKeyP_mono {db : List Nat} {keyOf : ColumnValue → Nat} {lo hi lo2 hi2 : Nat}
    {x : ColumnValue × RecordMeta} (h : rowKeyP db keyOf lo2 hi2 x)
    (h1 : lo ≤ lo2) (h2 : hi2 ≤ hi) : rowKeyP db keyOf lo hi x := by
  obtain ⟨s, record, hs, hr, hlen, hown, hlo, hhi⟩ := h
  exact ⟨s, record, hs, hr, hlen, hown, by omega, by omega⟩

theorem indexInteriorRows_cons {db : List Nat} {ps : Nat}
    {recur : Nat → RunResult (List (ColumnValue × RecordMeta))} {cp : Nat} {rest : List Nat}
    {o lcid recOff : Nat} {record : List ColumnValue} {own : ColumnValue}
    {sub more : List (ColumnValue × RecordMeta)}
    (hc : indexInteriorCellCore db o cp = .ok (lcid, record, recOff)) (hl : 1 ≤ lcid)
    (hsub : recur (ps * (lcid - 1)) = .ok sub)
    (hown : listIdx record 1 = .ok own)
    (hmore : indexInteriorRows db ps recur rest o = .ok more) :
    indexInteriorRows db ps recur (cp :: rest) o =
      .ok (sub ++ (own, ⟨2, recOff⟩) :: more) := by
  simp only [indexInteriorRows, RunResult.monad_bind_eq]
  rw [hc]
  simp only [RunResult.bind_ok]
  rw [if_neg (by omega : ¬ lcid = 0)]
  rw [hsub]
  simp only [RunResult.bind_ok]
  rw [hown]
  simp only [RunResult.bind_ok]
  rw [hmore]
  simp

theorem parse_page_interior_index_step {db : List Nat} {hdr : DBHeader}
    {cmap : List (String × Nat)} {o fuel read : Nat} {ph : PageHeader} {cps : List Nat}
    {rows1 rows2 : List (ColumnValue × RecordMeta)} {rp : Nat}
    (hhd : headerAt db o = .ok (read, ph))
    (hcps : cellPointers db (o + read) ph.number_of_cells = .ok cps)
    (hpt : ph.page_type = BTreePage.InteriorIndex)
    (hrmp : ph.right_most_pointer = some rp) (hrp : 1 ≤ rp)
    (hrows1 : indexInteriorRows db hdr.page_size
      (fun off => parse_page db hdr cmap off fuel) cps o = .ok rows1)
    (hrows2 : parse_page db hdr cmap (hdr.page_size * (rp - 1)) fuel = .ok rows2) :
    parse_page db hdr cmap o (fuel + 1) = .ok (rows1 ++ rows2) := by
  simp only [parse_page, RunResult.monad_bind_eq]
  rw [hhd]
  simp only [RunResult.bind_ok]
  rw [hcps]
  simp only [RunResult.bind_ok, hpt]
  rw [hrows1]
  simp only [RunResult.bind_ok, hrmp]
  rw [if_neg (by omega : ¬ rp = 0)]
  rw [hrows2]
  simp

theorem mapRR_indexLeaf (db : List Nat) (o : Nat) :
    ∀ {cps : List Nat} {cores : List (List ColumnValue × Nat)},
      mapRR (indexLeafCellCore db o) cps = .ok cores →
      (∀ c ∈ cores, c.1.length = 2) →
      mapRR (fun cp => RunResult.bind (indexLeafCellCore db o cp)
        (fun x => RunResult.bind (listIdx x.1 1)
          (fun own => RunResult.ok ((own, ⟨2, x.2⟩) : ColumnValue × RecordMeta)))) cps =
      .ok (cores.map (fun c =>
        ((c.1.getD 1 ColumnValue.Null, ⟨2, c.2⟩) : ColumnValue × RecordMeta))) := by
  intro cps
  induction cps with
  | nil =>
      intro cores h hlen
      simp [mapRR] at h
      simp [mapRR, ← h]
  | cons cp rest ih =>
      intro cores h hlen
      simp only [mapRR, RunResult.monad_bind_eq] at h ⊢
      cases hf : indexLeafCellCore db o cp with
      | ok c =>
          rw [hf] at h
          simp only [RunResult.bind_ok] at h
          cases ht : mapRR (indexLeafCellCore db o) rest with
          | ok cores2 =>
              rw [ht] at h
              simp only [RunResult.bind_ok] at h
              cases h
              simp only [RunResult.bind_ok]
              have h1 : c.1.length = 2 := (hlen c (by simp))
              rw [listIdx_pair h1]
              simp only [RunResult.bind_ok]
              rw [ih ht (fun x hx => hlen x (by simp [hx]))]
              simp
          | err m => rw [ht] at h; simp at h
          | fault => rw [ht] at h; simp at h
      | err m => rw [hf] at h; simp at h
      | fault => rw [hf] at h; simp at h

theorem wfIndexLeafCells_sound (db : List Nat) (keyOf : ColumnValue → Nat) (o : Nat) :
    ∀ (cps : List Nat) (lo hi : Nat),
      wfIndexLeafCells db keyOf o cps lo hi = true →
      ∃ cores : List (List ColumnValue × Nat),
        mapRR (indexLeafCellCore db o) cps = .ok cores ∧
        strictAscending (cores.map (fun c => keyOf (c.1.getD 0 ColumnValue.Null))) = true ∧
        ∀ c ∈ cores, c.1.length = 2 ∧ metaRecordOk db c.2 c.1 = true ∧
          lo ≤ keyOf (c.1.getD 0 ColumnValue.Null) ∧
          keyOf (c.1.getD 0 ColumnValue.Null) < hi := by
  intro cps
  induction cps with
  | nil =>
      intro lo hi h
      exact ⟨[], rfl, rfl, by simp⟩
  | cons cp rest ih =>
      intro lo hi h
      cases hc : indexLeafCellCore db o cp with
      | ok core =>
          simp only [wfIndexLeafCells] at h
          rw [hc] at h
          simp only [Bool.and_eq_true, decide_eq_true_eq] at h
          obtain ⟨⟨⟨⟨hlen2, hmeta⟩, hlo⟩, hhi⟩, hrest⟩ := h
          obtain ⟨cores, hcores, hasc, hbnd⟩ := ih _ _ hrest
          refine ⟨core :: cores, ?_, ?_, ?_⟩
          · simp only [mapRR, RunResult.monad_bind_eq]
            rw [hc]
            simp only [RunResult.bind_ok]
            rw [hcores]
            simp
          · simp only [List.map_cons]
            apply strictAscending_cons_of_all ?_ hasc
            intro y hy
            obtain ⟨c, hcm, rfl⟩ := List.mem_map.mp hy
            have := (hbnd c hcm).2.2.1
            omega
          · intro c hcm
            rcases List.mem_cons.mp hcm with rfl | hcm
            · exact ⟨hlen2, hmeta, hlo, hhi⟩
            · obtain ⟨ha, hb, hl2, hh2⟩ := hbnd c hcm
              exact ⟨ha, hb, by omega, hh2⟩
      | err m =>
          simp only [wfIndexLeafCells] at h
          rw [hc] at h
          simp at h
      | fault =>
          simp only [wfIndexLeafCells] at h
          rw [hc] at h
          simp at h

theorem wfIndexCells_sound (db : List Nat) (hdr : DBHeader) (keyOf : ColumnValue → Nat)
    (cmap : List (String × Nat)) (fuel : Nat)
    (IH : ∀ o lo hi, wfIndex db hdr keyOf fuel o lo hi = true →
      ∃ rows, parse_page db hdr cmap o fuel = .ok rows ∧
        strictAscending (rows.map (emittedKey db keyOf)) = true ∧
        ∀ x ∈ rows, rowKeyP db keyOf lo hi x) :
    ∀ (cps : List Nat) (o lo hi : Nat) (rmp : Option Nat),
      wfIndexCells db keyOf hdr.page_size (wfIndex db hdr keyOf fuel) o cps lo hi rmp = true →
      ∃ rows1 rows2 rp, rmp = some rp ∧ 1 ≤ rp ∧
        indexInteriorRows db hdr.page_size
          (fun off => parse_page db hdr cmap off fuel) cps o = .ok rows1 ∧
        parse_page db hdr cmap (hdr.page_size * (rp - 1)) fuel = .ok rows2 ∧
        strictAscending ((rows1 ++ rows2).map (emittedKey db keyOf)) = true ∧
        ∀ x ∈ rows1 ++ rows2, rowKeyP db keyOf lo hi x := by
  intro cps
  induction cps with
  | nil =>
      intro o lo hi rmp hwf
      cases rmp with
      | none => simp [wfIndexCells] at hwf
      | some rp =>
          simp only [wfIndexCells, Bool.and_eq_true, decide_eq_true_eq] at hwf
          obtain ⟨hrp, hrec⟩ := hwf
          obtain ⟨rows2, h2, hasc, hbnd⟩ := IH _ _ _ hrec
          exact ⟨[], rows2, rp, rfl, hrp, rfl, h2, by simpa using hasc, by simpa using hbnd⟩
  | cons cp rest ih =>
      intro o lo hi rmp hwf
      cases hc : indexInteriorCellCore db o cp with
      | ok trip =>
          obtain ⟨lcid, record, recOff⟩ := trip
          simp only [wfIndexCells] at hwf
          rw [hc] at hwf
          simp only [Bool.and_eq_true, decide_eq_true_eq] at hwf
          obtain ⟨⟨⟨⟨⟨⟨hlcid, hlen2⟩, hmeta⟩, hlok⟩, hkhi⟩, hchild⟩, hrest⟩ := hwf
          obtain ⟨sub, hsub, hsubasc, hsubbnd⟩ := IH _ _ _ hchild
          obtain ⟨rows1, rows2, rp, hrmp, hrp, hrows1, hrows2, hasc, hbnd⟩ := ih _ _ _ _ hrest
          obtain ⟨s0, hs0, hr0⟩ := metaRecordOk_elim hmeta
          have hownP : rowKeyP db keyOf lo hi
              ((record.getD 1 ColumnValue.Null, ⟨2, recOff⟩) : ColumnValue × RecordMeta) :=
            ⟨s0, record, hs0, hr0, hlen2, rfl, hlok, hkhi⟩
          have hkeyOwn : emittedKey db keyOf
              ((record.getD 1 ColumnValue.Null, ⟨2, recOff⟩) : ColumnValue × RecordMeta) =
              keyOf (record.getD 0 ColumnValue.Null) := emittedKey_eq hs0 hr0
          refine ⟨sub ++ (record.getD 1 ColumnValue.Null, ⟨2, recOff⟩) :: rows1, rows2, rp,
            hrmp, hrp,
            indexInteriorRows_cons hc hlcid hsub (listIdx_pair hlen2) hrows1, hrows2, ?_, ?_⟩
          · have hre : (sub ++ (record.getD 1 ColumnValue.Null,
                (⟨2, recOff⟩ : RecordMeta)) :: rows1) ++ rows2 =
                sub ++ ((record.getD 1 ColumnValue.Null, (⟨2, recOff⟩ : RecordMeta)) ::
                  (rows1 ++ rows2)) := by
              rw [List.append_assoc]
              simp
            rw [hre, List.map_append, List.map_cons]
            apply strictAscending_append hsubasc
            · apply strictAscending_cons_of_all ?_ hasc
              intro y hy
              obtain ⟨w, hw, rfl⟩ := List.mem_map.mp hy
              have := (rowKeyP_key (hbnd w hw)).1
              rw [hkeyOwn]
              omega
            · intro x hx y hy
              obtain ⟨u, hu, rfl⟩ := List.mem_map.mp hx
              have hxk := (rowKeyP_key (hsubbnd u hu)).2
              rcases List.mem_cons.mp hy with rfl | hy
              · rw [hkeyOwn]
                omega
              · obtain ⟨w, hw, rfl⟩ := List.mem_map.mp hy
                have := (rowKeyP_key (hbnd w hw)).1
                omega
          · intro x hx
            rw [List.append_assoc] at hx
            rcases List.mem_append.mp hx with hx | hx
            · exact rowKeyP_mono (hsubbnd x hx) (by omega) (by omega)
            · rcases List.mem_cons.mp hx with rfl | hx
              · exact hownP
              · exact rowKeyP_mono (hbnd x hx) (by omega) (by omega)
      | err m =>
          simp only [wfIndexCells] at hwf
          rw [hc] at hwf
          simp at hwf
      | fault =>
          simp only [wfIndexCells] at hwf
          rw [hc] at hwf
          simp at hwf

theorem wfIndex_sound :
    ∀ (fuel : Nat) (db : List Nat) (hdr : DBHeader) (keyOf : ColumnValue → Nat)
      (cmap : List (String × Nat)) (o lo hi : Nat),
      wfIndex db hdr keyOf fuel o lo hi = true →
      ∃ rows, parse_page db hdr cmap o fuel = .ok rows ∧
        strictAscending (rows.map (emittedKey db keyOf)) = true ∧
        ∀ x ∈ rows, rowKeyP db keyOf lo hi x := by
  intro fuel
  induction fuel with
  | zero =>
      intro db hdr keyOf cmap o lo hi h
      simp [wfIndex] at h
  | succ fuel ih =>
      intro db hdr keyOf cmap o lo hi h
      simp only [wfIndex] at h
      split at h
      · rename_i read ph hhd
        split at h
        · rename_i cps hcps
          split at h
          · -- LeafIndex arm
            rename_i hpt
            obtain ⟨cores, hcores, hasc, hbnd⟩ :=
              wfIndexLeafCells_sound db keyOf o cps lo hi h
            have h5 := mapRR_indexLeaf db o hcores (fun c hc => (hbnd c hc).1)
            refine ⟨cores.map (fun c =>
              ((c.1.getD 1 ColumnValue.Null, ⟨2, c.2⟩) : ColumnValue × RecordMeta)),
              ?_, ?_, ?_⟩
            · simp only [parse_page, RunResult.monad_bind_eq]
              rw [hhd]
              simp only [RunResult.bind_ok]
              rw [hcps]
              simp only [RunResult.bind_ok, hpt]
              exact h5
            · rw [List.map_map]
              have heq : ∀ c ∈ cores,
                  (emittedKey db keyOf ∘ fun c =>
                    ((c.1.getD 1 ColumnValue.Null, ⟨2, c.2⟩) : ColumnValue × RecordMeta)) c =
                  keyOf (c.1.getD 0 ColumnValue.Null) := by
                intro c hc
                obtain ⟨s, hs, hr⟩ := metaRecordOk_elim (hbnd c hc).2.1
                exact emittedKey_eq hs hr
              rw [List.map_congr_left heq]
              exact hasc
            · intro x hx
              obtain ⟨c, hcm, rfl⟩ := List.mem_map.mp hx
              obtain ⟨hl2, hmeta, hlo2, hhi2⟩ := hbnd c hcm
              obtain ⟨s, hs, hr⟩ := metaRecordOk_elim hmeta
              exact ⟨s, c.1, hs, hr, hl2, rfl, hlo2, hhi2⟩
          · -- InteriorIndex arm
            rename_i hpt
            obtain ⟨rows1, rows2, rp, hrmp, hrp, hrows1, hrows2, hasc, hbnd⟩ :=
              wfIndexCells_sound db hdr keyOf cmap fuel
                (fun o lo hi => ih db hdr keyOf cmap o lo hi)
                cps o lo hi ph.right_most_pointer h
            exact ⟨rows1 ++ rows2,
              parse_page_interior_index_step hhd hcps hpt hrmp hrp hrows1 hrows2,
              hasc, hbnd⟩
          · simp at h
        · simp at h
      · simp at h

/-- C4: on an index-interior page the traversal performs an in-order walk:
for each cell it first emits the entire subtree of the cell's
`left_child_page_id` and then the cell's own key-payload entry
`(record[1], RecordMeta)` (first conjunct), and after all cells it emits the
`right_most_pointer` subtree (second conjunct); consequently, for every
well-formed index B-tree, the emitted key sequence is strictly ascending
under the declared key ordering and each emitted entry carries the trailing
rowid of its re-parsed record (third conjunct, via `rowKeyP`). -/
theorem c4_index_interior_in_order_and_ascending :
    (∀ (db : List Nat) (ps : Nat)
       (recur : Nat → RunResult (List (ColumnValue × RecordMeta))) (cp : Nat)
       (rest : List Nat) (o lcid recOff : Nat) (record : List ColumnValue)
       (own : ColumnValue) (sub more : List (ColumnValue × RecordMeta)),
      indexInteriorCellCore db o cp = .ok (lcid, record, recOff) → 1 ≤ lcid →
      recur (ps * (lcid - 1)) = .ok sub →
      listIdx record 1 = .ok own →
      indexInteriorRows db ps recur rest o = .ok more →
      indexInteriorRows db ps recur (cp :: rest) o =
        .ok (sub ++ (own, ⟨2, recOff⟩) :: more)) ∧
    (∀ (db : List Nat) (hdr : DBHeader) (cmap : List (String × Nat)) (o fuel read : Nat)
       (ph : PageHeader) (cps : List Nat) (rows1 rows2 : List (ColumnValue × RecordMeta))
       (rp : Nat),
      headerAt db o = .ok (read, ph) →
      cellPointers db (o + read) ph.number_of_cells = .ok cps →
      ph.page_type = BTreePage.InteriorIndex →
      ph.right_most_pointer = some rp → 1 ≤ rp →
      indexInteriorRows db hdr.page_size (fun off => parse_page db hdr cmap off fuel) cps o =
        .ok rows1 →
      parse_page db hdr cmap (hdr.page_size * (rp - 1)) fuel = .ok rows2 →
      parse_page db hdr cmap o (fuel + 1) = .ok (rows1 ++ rows2)) ∧
    (∀ (fuel : Nat) (db : List Nat) (hdr : DBHeader) (keyOf : ColumnValue → Nat)
       (cmap : List (String × Nat)) (o lo hi : Nat),
      wfIndex db hdr keyOf fuel o lo hi = true →
      ∃ rows, parse_page db hdr cmap o fuel = .ok rows ∧
        strictAscending (rows.map (emittedKey db keyOf)) = true ∧
        ∀ x ∈ rows, rowKeyP db keyOf lo hi x) := by
  refine ⟨?_, ?_, ?_⟩
  · intro db ps recur cp rest o lcid recOff record own sub more hc hl hsub hown hmore
    exact indexInteriorRows_cons hc hl hsub hown hmore
  · intro db hdr cmap o fuel read ph cps rows1 rows2 rp hhd hcps hpt hrmp hrp h1 h2
    exact parse_page_interior_index_step hhd hcps hpt hrmp hrp h1 h2
  · intro fuel db hdr keyOf cmap o lo hi h
    exact wfIndex_sound fuel db hdr keyOf cmap o lo hi h

set_option maxRecDepth 8000 in
/-- C4 witness: the theorem applied to database C's two-level index tree —
the interior root's output is left-child subtree, then its own entry, then
the right-most subtree, and the well-formed tree's key sequence 97, 98, 107,
120, 121 is strictly ascending with each entry carrying its trailing
rowid. -/
theorem c4_index_traversal_witness :
    indexInteriorRows dbC 32 (fun off => parse_page dbC hdrC [] off 1) [16] 32 =
      .ok ([(ColumnValue.U8 1, { column_count := 2, offset := 77 }),
            (ColumnValue.U8 2, { column_count := 2, offset := 83 })] ++
           (ColumnValue.U8 3, { column_count := 2, offset := 53 }) :: []) ∧
    parse_page dbC hdrC [] 32 (1 + 1) =
      .ok ([(ColumnValue.U8 1, { column_count := 2, offset := 77 }),
            (ColumnValue.U8 2, { column_count := 2, offset := 83 }),
            (ColumnValue.U8 3, { column_count := 2, offset := 53 })] ++
           [(ColumnValue.U8 4, { column_count := 2, offset := 109 }),
            (ColumnValue.U8 5, { column_count := 2, offset := 115 })]) ∧
    (∃ rows, parse_page dbC hdrC [] 32 2 = .ok rows ∧
      strictAscending (rows.map (emittedKey dbC keyC)) = true ∧
      ∀ x ∈ rows, rowKeyP dbC keyC 0 256 x) :=
  ⟨c4_index_interior_in_order_and_ascending.1 dbC 32 (fun off => parse_page dbC hdrC [] off 1) 16 [] 32 3 53
      [ColumnValue.Text [107], ColumnValue.U8 3] (ColumnValue.U8 3)
      [(ColumnValue.U8 1, { column_count := 2, offset := 77 }),
       (ColumnValue.U8 2, { column_count := 2, offset := 83 })] []
      rfl (by decide) rfl rfl rfl,
   c4_index_interior_in_order_and_ascending.2.1 dbC hdrC [] 32 1 12
      ⟨BTreePage.InteriorIndex, 0, 1, 0, 0, some 4⟩ [16]
      [(ColumnValue.U8 1, { column_count := 2, offset := 77 }),
       (ColumnValue.U8 2, { column_count := 2, offset := 83 }),
       (ColumnValue.U8 3, { column_count := 2, offset := 53 })]
      [(ColumnValue.U8 4, { column_count := 2, offset := 109 }),
       (ColumnValue.U8 5, { column_count := 2, offset := 115 })] 4
      rfl rfl rfl rfl (by decide) rfl rfl,
   c4_index_interior_in_order_and_ascending.2.2 2 dbC hdrC keyC [] 32 0 256 rfl⟩

theorem read_usize_cvNat {cv : ColumnValue} {r : Nat} (h : cv.read_usize = .ok r) :
    cvNat cv = r := by
  cases cv <;> simp [ColumnValue.read_usize, cvNat] at h ⊢ <;> omega

theorem isU64_elim {cv : ColumnValue} (h : cv.isU64 = true) : ∃ w, cv = ColumnValue.U64 w := by
  cases cv <;> simp [ColumnValue.isU64] at h ⊢

theorem entryColString_ok_elim {db : List Nat} {cc ci : Nat} {meta : RecordMeta} {str : String}
    (h : entryColString db cc ci meta = .ok str) :
    ∃ s record cv, sliceFrom db meta.offset = .ok s ∧
      unwrapRR (parse_record s cc) = .ok record ∧
      listIdx record ci = .ok cv ∧ cv.toDisplay = .ok str := by
  simp only [entryColString, RunResult.monad_bind_eq] at h
  cases hs : sliceFrom db meta.offset with
  | ok s =>
      rw [hs] at h
      simp only [RunResult.bind_ok] at h
      cases hr : unwrapRR (parse_record s cc) with
      | ok record =>
          rw [hr] at h
          simp only [RunResult.bind_ok] at h
          cases hcv : listIdx record ci with
          | ok cv =>
              rw [hcv] at h
              simp only [RunResult.bind_ok] at h
              exact ⟨s, record, cv, rfl, hr, hcv, h⟩
          | err m => rw [hcv] at h; simp at h
          | fault => rw [hcv] at h; simp at h
      | err m => rw [hr] at h; simp at h
      | fault => rw [hr] at h; simp at h
  | err m => rw [hs] at h; simp at h
  | fault => rw [hs] at h; simp at h

theorem entryColStringD_eq {db : List Nat} {cc ci : Nat} {meta : RecordMeta} {str : String}
    (h : entryColString db cc ci meta = .ok str) : entryColStringD db cc ci meta = str := by
  unfold entryColStringD
  rw [h]

theorem rowidsLoop_eval (db : List Nat) (wcol v : String) :
    ∀ irs : List (ColumnValue × RecordMeta),
      (∀ x ∈ irs, (entryColString db 2 0 x.2).isOk = true) →
      (∀ x ∈ irs, (x.1.read_usize).isOk = true) →
      readIndexRowidsLoop db (some (wcol, v)) irs =
        .ok (irs.filterMap (fun x => if entryColStringD db 2 0 x.2 = v
          then some (cvNat x.1) else none)) := by
  intro irs
  induction irs with
  | nil => intro _ _; rfl
  | cons p rest ih =>
      intro hcol hrid
      obtain ⟨rowid, row⟩ := p
      obtain ⟨str, hstr⟩ := RunResult.isOk_iff.mp (hcol (rowid, row) (by simp))
      obtain ⟨s, record, cv, hs, hr, hcv, hd⟩ := entryColString_ok_elim hstr
      obtain ⟨rid, hrid0⟩ := RunResult.isOk_iff.mp (hrid (rowid, row) (by simp))
      have hcvn : cvNat rowid = rid := read_usize_cvNat hrid0
      have ihx := ih (fun x hx => hcol x (by simp [hx])) (fun x hx => hrid x (by simp [hx]))
      simp only [readIndexRowidsLoop, RunResult.monad_bind_eq]
      rw [hs]
      simp only [RunResult.bind_ok]
      rw [hr]
      simp only [RunResult.bind_ok]
      rw [hcv]
      simp only [RunResult.bind_ok]
      rw [hd]
      simp only [RunResult.bind_ok, unwrapOpt]
      rw [List.filterMap_cons]
      rw [entryColStringD_eq hstr]
      by_cases hv : str = v
      · rw [if_pos hv, if_pos hv]
        rw [hrid0]
        simp only [RunResult.bind_ok]
        rw [ihx]
        simp [hcvn]
      · rw [if_neg hv, if_neg hv]
        exact ihx

theorem loops_eq (db : List Nat) (cmap : List (String × Nat)) (columns : List String)
    (wcol v : String) (colidx : Nat) (R : List Nat)
    (h7 : cmap.lookup wcol = some colidx) :
    ∀ trs : List (ColumnValue × RecordMeta),
      (∀ x ∈ trs, (entryColString db x.2.column_count colidx x.2).isOk = true) →
      (∀ x ∈ trs, x.1.isU64 = true) →
      (∀ x ∈ trs, (projectRow db cmap columns x.1 x.2).isOk = true) →
      (∀ x ∈ trs, (cvNat x.1 ∈ R ↔ entryColStringD db x.2.column_count colidx x.2 = v)) →
      ∃ out, readIndexTableLoop db cmap columns R trs = .ok out ∧
             readColumnsLoop db cmap columns (some (wcol, v)) trs = .ok out := by
  intro trs
  induction trs with
  | nil =>
      intro _ _ _ _
      exact ⟨[], rfl, rfl⟩
  | cons p rest ih =>
      intro hcol hu64 hproj hiff
      obtain ⟨rowid, row⟩ := p
      obtain ⟨w, rfl⟩ := isU64_elim (hu64 (rowid, row) (by simp))
      obtain ⟨str, hstr⟩ :=
        RunResult.isOk_iff.mp (hcol (ColumnValue.U64 w, row) (by simp))
      obtain ⟨s, record, cv, hs, hr, hcv, hd⟩ := entryColString_ok_elim hstr
      obtain ⟨vals, hvals⟩ :=
        RunResult.isOk_iff.mp (hproj (ColumnValue.U64 w, row) (by simp))
      obtain ⟨out, hA, hB⟩ := ih
        (fun x hx => hcol x (by simp [hx]))
        (fun x hx => hu64 x (by simp [hx]))
        (fun x hx => hproj x (by simp [hx]))
        (fun x hx => hiff x (by simp [hx]))
      have hiff0 := hiff (ColumnValue.U64 w, row) (by simp)
      rw [entryColStringD_eq hstr] at hiff0
      simp only [cvNat] at hiff0
      simp only [readIndexTableLoop, readColumnsLoop, RunResult.monad_bind_eq,
        ColumnValue.read_usize, RunResult.bind_ok]
      rw [h7]
      simp only [unwrapOpt, RunResult.bind_ok]
      rw [hs]
      simp only [RunResult.bind_ok]
      rw [hr]
      simp only [RunResult.bind_ok]
      rw [hcv]
      simp only [RunResult.bind_ok]
      rw [hd]
      simp only [RunResult.bind_ok, RunResult.pure_eq]
      by_cases hv : str = v
      · have hmem : w ∈ R := hiff0.mpr hv
        refine ⟨(w, vals) :: out, ?_, ?_⟩
        · simp [hmem, hvals, hA, cvNat]
        · simp [hv, hvals, hB, cvNat]
      · have hmem : ¬ w ∈ R := fun hm => hv (hiff0.mp hm)
        refine ⟨out, ?_, ?_⟩
        · simp [hmem, hA]
        · simp [hv, hB]

/-- C5: an equality-filtered query returns the same rows through the
index-assisted path (`read_index`: collect matching rowids from the index
tree, then filter the table tree by rowid membership) as through the
full-table-scan path (`read_columns`).  The hypotheses state that the
database "contains a table and a secondary index on one of its columns":
both catalog entries resolve, both trees traverse, every table row decodes
(with distinct rowids) and projects, every index entry decodes, and the
index's (key display, rowid) multiset is exactly the table's
(filter-column display, rowid) multiset. -/
theorem c5_index_path_equals_scan_path :
    ∀ (db : List Nat) (hdr : DBHeader) (cmap : List (String × Nat)) (columns : List String)
      (table wcol v : String) (colidx fuel : Nat) (schema ischema : Schema)
      (trs irs : List (ColumnValue × RecordMeta)),
      hdr.schemas.find? (fun s => s.table_name == table) = some schema →
      hdr.schemas.find? (fun s => s.name == "idx_companies_country") = some ischema →
      1 ≤ schema.root_page → 1 ≤ ischema.root_page →
      parse_page db hdr cmap (hdr.page_size * (schema.root_page - 1)) fuel = .ok trs →
      parse_page db hdr cmap (hdr.page_size * (ischema.root_page - 1)) fuel = .ok irs →
      cmap.lookup wcol = some colidx →
      (∀ x ∈ trs, (entryColString db x.2.column_count colidx x.2).isOk = true) →
      (∀ x ∈ trs, x.1.isU64 = true) →
      (∀ x ∈ trs, (projectRow db cmap columns x.1 x.2).isOk = true) →
      (∀ x ∈ irs, (entryColString db 2 0 x.2).isOk = true) →
      (∀ x ∈ irs, (x.1.read_usize).isOk = true) →
      (trs.map (fun x => cvNat x.1)).Nodup →
      (irs.map (fun x => (entryColStringD db 2 0 x.2, cvNat x.1))).Perm
        (trs.map (fun x => (entryColStringD db x.2.column_count colidx x.2, cvNat x.1))) →
      ∃ out, read_index_rows db hdr cmap columns table (some (wcol, v)) fuel = .ok out ∧
             read_columns_rows db hdr cmap columns table (some (wcol, v)) fuel = .ok out := by
  intro db hdr cmap columns table wcol v colidx fuel schema ischema trs irs
    h1 h2 h3 h4 h5 h6 h7 h8 h9 h10 h11 h12 h13 h14
  have hR := rowidsLoop_eval db wcol v irs h11 h12
  have hiffAll : ∀ x ∈ trs,
      (cvNat x.1 ∈ irs.filterMap (fun x => if entryColStringD db 2 0 x.2 = v
          then some (cvNat x.1) else none) ↔
        entryColStringD db x.2.column_count colidx x.2 = v) := by
    intro x0 hx0
    constructor
    · intro hmem
      rw [List.mem_filterMap] at hmem
      obtain ⟨y, hy, hfy⟩ := hmem
      by_cases hk : entryColStringD db 2 0 y.2 = v
      · rw [if_pos hk] at hfy
        have hcveq : cvNat y.1 = cvNat x0.1 := Option.some.inj hfy
        have hinI : (v, cvNat x0.1) ∈
            irs.map (fun x => (entryColStringD db 2 0 x.2, cvNat x.1)) :=
          List.mem_map.mpr ⟨y, hy, by rw [hk, hcveq]⟩
        have hinT := h14.mem_iff.mp hinI
        rw [List.mem_map] at hinT
        obtain ⟨z, hz, hzeq⟩ := hinT
        rw [Prod.mk.injEq] at hzeq
        have hzx : z = x0 :=
          List.inj_on_of_nodup_map h13 hz hx0 hzeq.2
        rw [← hzx]
        exact hzeq.1
      · rw [if_neg hk] at hfy
        exact absurd hfy (by simp)
    · intro hcolv
      have hinT : (v, cvNat x0.1) ∈
          trs.map (fun x => (entryColStringD db x.2.column_count colidx x.2, cvNat x.1)) :=
        List.mem_map.mpr ⟨x0, hx0, by rw [hcolv]⟩
      have hinI := h14.mem_iff.mpr hinT
      rw [List.mem_map] at hinI
      obtain ⟨y, hy, hyeq⟩ := hinI
      rw [Prod.mk.injEq] at hyeq
      rw [List.mem_filterMap]
      exact ⟨y, hy, by rw [if_pos hyeq.1, hyeq.2]⟩
  obtain ⟨out, hA, hB⟩ :=
    loops_eq db cmap columns wcol v colidx _ h7 trs h8 h9 h10 hiffAll
  refine ⟨out, ?_, ?_⟩
  · simp only [read_index_rows, RunResult.monad_bind_eq]
    rw [h1]
    simp only [unwrapOpt, RunResult.bind_ok]
    rw [h2]
    simp only [unwrapOpt, RunResult.bind_ok]
    rw [if_neg (by omega : ¬ ischema.root_page = 0)]
    rw [h6]
    simp only [RunResult.bind_ok]
    rw [hR]
    simp only [RunResult.bind_ok]
    rw [if_neg (by omega : ¬ schema.root_page = 0)]
    rw [h5]
    simp only [RunResult.bind_ok]
    exact hA
  · simp only [read_columns_rows, RunResult.monad_bind_eq]
    rw [h1]
    simp only [unwrapOpt, RunResult.bind_ok]
    rw [if_neg (by omega : ¬ schema.root_page = 0)]
    rw [h5]
    simp only [RunResult.bind_ok]
    exact hB

set_option maxRecDepth 8000 in
/-- C5 witness: the theorem applied to database A — a two-row table with an
index on `country` — under the filter `country = "x"`; both paths return
the same single row. -/
theorem c5_index_scan_witness :
    ∃ out, read_index_rows dbA hdrA cmapA ["id", "name"] "companies"
        (some ("country", "x")) 1 = .ok out ∧
      read_columns_rows dbA hdrA cmapA ["id", "name"] "companies"
        (some ("country", "x")) 1 = .ok out :=
  c5_index_path_equals_scan_path dbA hdrA cmapA ["id", "name"] "companies" "country" "x" 1 1
    schemaATable schemaAIndex
    [(ColumnValue.U64 1, { column_count := 2, offset := 46 }),
     (ColumnValue.U64 2, { column_count := 2, offset := 53 })]
    [(ColumnValue.U8 1, { column_count := 2, offset := 77 }),
     (ColumnValue.U8 2, { column_count := 2, offset := 83 })]
    rfl rfl (by decide) (by decide) rfl rfl rfl
    (by decide) (by decide) (by decide) (by decide) (by decide) (by decide) (by decide)
